import Mathlib

/-! # qp: placeholder expansion (`in`), validators and string helpers

A shallow embedding of `in`, `appendReflectSlice` and `deref` from
`external.go`, together with the part of Go's run-time type information
(`reflect`) these functions consult, of the validators of `validation.go`
and of `cleanSliceString` of `utils.go`.

Conventions of the embedding

* A Go `string` is a sequence of bytes; the query is a `List Char`, one
  entry per unit scanned by `strings.IndexByte`.  The only unit the code
  ever compares with is `?`.
* A Go `[]interface{}` is an `Option (List Value)`: `none` is the nil slice.
  Capacities (`make(..., 0, n)`) are not observable and are left out; the
  array `meta`, allocated at full length and filled by index, is built by
  appending.
* A Go `error` is an `Option String`: `none` is the nil error, `some m` is
  `errors.New(m)`.
* A run-time panic is an outcome of its own (`Result.panic`).  The panics
  modelled are those of `reflect`: `Value.Type` and `Value.Interface` on the
  zero `reflect.Value` (which is what `reflect.ValueOf(nil)` returns),
  `Value.Len` on a value that is neither a slice nor a string, and
  `Value.Index` out of range.
* What the method `Value()` of a `driver.Valuer` returns is part of the
  value (`Value.valuer`); a method that panics itself is outside the model.
* The second loop of `in` runs on a step budget of `len(query) + 1`
  iterations, which it never exhausts (`in_never_timeout`).
* A validator is a function from a value to what the call does: it returns
  an error (or nil), or it panics.  The comparison `==` of two interface
  values is `goEq`; it panics on two values of one uncomparable type: a
  slice type, or a struct type with a field of such a type.
* The error `errors.Wrapf(cause, "%v", value)` keeps its cause and the value
  it was built from; the text that `%v` formats and the stack trace are
  left out.
* The strings of `utils.go` are lists of characters as well; a `[]string`
  is a list, its nil slice the empty list.
-/

set_option autoImplicit false

namespace qp

/-! ## Go types and values -/

/-- Go types, as far as `in` can tell them apart. -/
inductive GoType where
  | int
  | string
  | bool
  | uint8
  /-- the empty interface `interface{}` (only as an element type) -/
  | iface
  /-- a struct type, identified by its name -/
  | struct (name : String)
  /-- the slice type `[]elem` -/
  | slice (elem : GoType)
  /-- the pointer type `*elem` -/
  | ptr (elem : GoType)
  /-- a defined type `type name underlying` -/
  | named (name : String) (underlying : GoType)
  deriving DecidableEq, Repr

/-- The kinds of `reflect.Kind` that occur in the model. -/
inductive Kind where
  | Int | String | Bool | Uint8 | Interface | Struct | Slice | Ptr
  deriving DecidableEq, Repr

/-- Kind of a type, as `reflect.Type.Kind`: a defined type has the kind of its underlying type. -/
def GoType.Kind : GoType → Kind
  | .int => .Int
  | .string => .String
  | .bool => .Bool
  | .uint8 => .Uint8
  | .iface => .Interface
  | .struct _ => .Struct
  | .slice _ => .Slice
  | .ptr _ => .Ptr
  | .named _ u => u.Kind

/-- Element type, as `reflect.Type.Elem`, for slice and pointer kinds (`none`: Elem panics). -/
def GoType.Elem : GoType → Option GoType
  | .slice e => some e
  | .ptr e => some e
  | .named _ u => u.Elem
  | _ => none

/-- The type `[]byte` (`reflect.TypeOf([]byte{})`); `byte` is an alias of `uint8`. -/
def bytesType : GoType := .slice .uint8

/-- Go values as they are passed in an `interface{}`. -/
inductive Value where
  /-- the nil interface value: it has no dynamic type -/
  | nil
  | int (n : Int)
  | str (s : String)
  | bool (b : Bool)
  | byte (b : Nat)
  /-- a struct value of the struct type `name` -/
  | struct (name : String) (fields : List Value)
  /-- a slice value of type `[]elem` holding `elems` -/
  | slice (elem : GoType) (elems : List Value)
  /-- a pointer of type `*elem`; address `0` is the nil pointer -/
  | ptr (elem : GoType) (addr : Nat)
  /-- a value of the defined type `type name U`, where `underlying` has type `U` -/
  | defined (name : String) (underlying : Value)
  /-- a value `self` whose type implements `driver.Valuer`: its method
  `Value()` returns `(result, err)` -/
  | valuer (self : Value) (result : Value) (err : Option String)
  deriving Repr

/-- Dynamic type of a value; `none` for the nil interface. -/
def Value.typ : Value → Option GoType
  | .nil => none
  | .int _ => some .int
  | .str _ => some .string
  | .bool _ => some .bool
  | .byte _ => some .uint8
  | .struct n _ => some (.struct n)
  | .slice e _ => some (.slice e)
  | .ptr e _ => some (.ptr e)
  | .defined n u => u.typ.map (GoType.named n)
  | .valuer s _ _ => s.typ

/-- Elements of a value of slice kind (empty for every other value). -/
def Value.elems : Value → List Value
  | .slice _ es => es
  | .defined _ u => u.elems
  | .valuer s _ _ => s.elems
  | _ => []

/-- Length as `reflect.Value.Len`: defined for slices and strings, `none`
(a panic) for the other values of the model, pointers to slices included. -/
def Value.Len : Value → Option Nat
  | .slice _ es => some es.length
  | .str s => some s.utf8ByteSize
  | .defined _ u => u.Len
  | .valuer s _ _ => s.Len
  | _ => none

/-! ## `external.go` -/

/-- Outcome of a call of `in`. -/
inductive Result where
  /-- the call returned the triple `(query, args, err)` -/
  | ret (query : List Char) (args : Option (List Value)) (err : Option String)
  /-- the call panicked -/
  | panic (msg : String)
  /-- the step budget of the model ran out (never the case, see `in_never_timeout`) -/
  | timeout
  deriving Repr

/-- The local type `argMeta` of `in`. `Value.nil` in `v` is the zero `reflect.Value`. -/
structure ArgMeta where
  v : Value := .nil
  i : Value := .nil
  length : Nat := 0
  deriving Repr

/-- deref is Indirect for reflect.Types. -/
def deref (t : GoType) : GoType :=
  if t.Kind = .Ptr then t.Elem.getD t else t

/-- The type assertion `arg.(driver.Valuer)` followed by `arg, _ = a.Value()`;
the error of the accessor is dropped. -/
def unwrapValuer : Value → Value
  | .valuer _ result _ => result
  | arg => arg

/-- The generic loop of `appendReflectSlice`:
`for si := 0; si < vlen; si++ { args = append(args, v.Index(si).Interface()) }`,
with `rem = vlen - si` iterations left. -/
def indexLoop (v : Value) : Nat → Nat → List Value → Except String (List Value)
  | 0, _, args => .ok args
  | rem + 1, si, args =>
    match v.elems[si]? with
    | none => .error "reflect: slice index out of range"
    | some e => indexLoop v rem (si + 1) (args ++ [e])

/-- The loops `for i := range val { args = append(args, val[i]) }`. -/
def appendEach (args : List Value) (val : List Value) : List Value :=
  val.foldl (fun acc x => acc ++ [x]) args

/-- appendReflectSlice appends elements of a reflect.Value slice to args.
`Except.error` is a panic. -/
def appendReflectSlice (args : List Value) (v : Value) (vlen : Nat) :
    Except String (List Value) :=
  match v.typ with
  | none => .error "reflect: call of reflect.Value.Interface on zero Value"
  | some (.slice .iface) => .ok (args ++ v.elems)
  | some (.slice .int) => .ok (appendEach args v.elems)
  | some (.slice .string) => .ok (appendEach args v.elems)
  | some _ => indexLoop v vlen 0 args

/-- The variables the first loop of `in` updates. -/
structure ClassState where
  meta : List ArgMeta := []
  anySlices : Bool := false
  flatArgsCount : Nat := 0
  deriving Repr

/-- How the first loop of `in` classifies one argument. -/
inductive Class where
  /-- the branch `t.Kind() == reflect.Slice && t != reflect.TypeOf([]byte{})`,
  with `v` and `v.Len()` -/
  | slice (v : Value) (length : Nat)
  /-- the `else` branch, with the argument kept in `argMeta.i` -/
  | scalar (i : Value)
  deriving Repr

/-- Lines 32 to 47 of `in`, up to the choice of the branch, for the value
`arg` left by the accessor step; `Except.error` is a panic. -/
def classifyValue (arg : Value) : Except String Class :=
  -- v := reflect.ValueOf(arg); t := deref(v.Type())
  match arg.typ with
  | none => .error "reflect: call of reflect.Value.Type on zero Value"
  | some ty =>
    let t := deref ty
    if t.Kind = .Slice ∧ t ≠ bytesType then
      match arg.Len with
      | none => .error "reflect: call of reflect.Value.Len on ptr Value"
      | some n => .ok (.slice arg n)
    else
      .ok (.scalar arg)

/-- Head of the body of the first loop of `in` for one argument: the accessor
step `if a, ok := arg.(driver.Valuer); ok { arg, _ = a.Value() }`, then the
classification of the value it leaves. -/
def classify (arg : Value) : Except String Class :=
  classifyValue (unwrapValuer arg)

/-- The first loop of `in`, `for i, arg := range args`; `Except.error` is an
early exit of `in` (a return or a panic). -/
def classifyLoop : List Value → ClassState → Except Result ClassState
  | [], cs => .ok cs
  | arg :: rest, cs =>
    match classify arg with
    | .error msg => .error (.panic msg)
    | .ok (.slice v n) =>
      if n = 0 then
        .error (.ret [] none (some "empty slice passed to 'in' query"))
      else
        classifyLoop rest
          { meta := cs.meta ++ [{ v := v, length := n }],
            anySlices := true,
            flatArgsCount := cs.flatArgsCount + n }
    | .ok (.scalar a) =>
      classifyLoop rest
        { cs with meta := cs.meta ++ [{ i := a }],
                  flatArgsCount := cs.flatArgsCount + 1 }

/-- Index of the first `c` in `s`, as `strings.IndexByte`; `none` stands for `-1`. -/
def indexByte : List Char → Char → Option Nat
  | [], _ => none
  | x :: xs, c => if x = c then some 0 else (indexByte xs c).map (· + 1)

/-- The variables the second loop of `in` updates. -/
structure LoopState where
  query : List Char
  offset : Nat := 0
  arg : Nat := 0
  buf : List Char := []
  newArgs : List Value := []
  deriving Repr

/-- The inner loop `for si := 1; si < argMeta.length; si++ { buf = append(buf, ", ?"...) }`. -/
def appendGroups (buf : List Char) (length : Nat) : List Char :=
  (List.range (length - 1)).foldl (fun b _ => b ++ [',', ' ', '?']) buf

/-- The second loop of `in`,
`for i := strings.IndexByte(query[offset:], '?'); i != -1; i = ...`, run
for at most `fuel` iterations; `Except.error` is an early exit of `in`. -/
def rewriteLoop (meta : List ArgMeta) : Nat → LoopState → Except Result LoopState
  | 0, _ => .error .timeout
  | fuel + 1, st =>
    match indexByte (st.query.drop st.offset) '?' with
    | none => .ok st
    | some i =>
      match meta[st.arg]? with
      | none =>
        -- arg >= len(meta)
        .error (.ret [] none (some "number of bindVars exceeds arguments"))
      | some argMeta =>
        if argMeta.length = 0 then
          -- Not a slice, continue.
          rewriteLoop meta fuel
            { st with arg := st.arg + 1,
                      offset := st.offset + i + 1,
                      newArgs := st.newArgs ++ [argMeta.i] }
        else
          match appendReflectSlice st.newArgs argMeta.v argMeta.length with
          | .error msg => .error (.panic msg)
          | .ok newArgs =>
            rewriteLoop meta fuel
              { query := st.query.drop (st.offset + i + 1),
                offset := 0,
                arg := st.arg + 1,
                buf := appendGroups (st.buf ++ st.query.take (st.offset + i + 1)) argMeta.length,
                newArgs := newArgs }

/-- The function `in` of `external.go`: it expands slice values in args,
returning the modified query string and a new arg list. -/
def in_ (query : List Char) (args : Option (List Value)) : Result :=
  match classifyLoop (args.getD []) {} with
  | .error r => r
  | .ok cs =>
    if !cs.anySlices then
      .ret query args none
    else
      match rewriteLoop cs.meta (query.length + 1) { query := query } with
      | .error r => r
      | .ok st =>
        let buf := st.buf ++ st.query
        if st.arg < cs.meta.length then
          .ret [] none (some "number of bindVars less than number of arguments")
        else
          .ret buf (some st.newArgs) none

/-! ## Test data of `external_test.go` -/

/-- The value `MyValuer{}` of the tests: `Value()` returns `("NULL", nil)`. -/
def myValuer : Value := .valuer (.struct "MyValuer" []) (.str "NULL") none

/-- The Go value `[]string{...}`. -/
def strings (xs : List String) : Value := .slice .string (xs.map .str)

/-- The Go value `[]int{...}`. -/
def ints (xs : List Int) : Value := .slice .int (xs.map .int)

/-- The Go value `[]byte{...}`. -/
def bytes (xs : List Nat) : Value := .slice .uint8 (xs.map .byte)

/-! ## `validation.go` -/

/-- Errors as `validation.go` builds them. -/
inductive GoErr where
  /-- a sentinel error, a package variable set with `errors.New` -/
  | sentinel (name : String)
  /-- the error `errors.Wrapf(cause, "%v", value)` for a non-nil `cause`:
  `cause` annotated with the formatted `value` -/
  | wrapf (cause : GoErr) (value : Value)
  deriving Repr

/-- The error at the root of a chain of wrappers, as `errors.Cause`. -/
def GoErr.Cause : GoErr → GoErr
  | .sentinel n => .sentinel n
  | .wrapf c _ => c.Cause

/-- Modelled from the spec: the sentinel error `ErrNotInScope` (`NotInScopeError`
in the spec), a package variable of this repository that is declared outside
the given sources; it is taken to be a non-nil error, so that `errors.Wrapf`
of it is non-nil. -/
def ErrNotInScope : GoErr := .sentinel "ErrNotInScope"

/-- Outcome of a call of a validator. -/
inductive VResult where
  /-- the call returned `err` (`none` is the nil error) -/
  | ret (err : Option GoErr)
  /-- the call panicked -/
  | panic (msg : String)
  deriving Repr

/-- ValidationFunc represents a validator for Filters. -/
abbrev ValidationFunc := Value → VResult

mutual
/-- The dynamic type of the value is comparable: it is not a slice type and
holds no slice type in a field.  A struct field that holds a slice is read
as a field of slice type, which makes the struct type uncomparable whatever
its other fields are. -/
def isComparable : Value → Bool
  | .slice _ _ => false
  | .struct _ fs => fieldsComparable fs
  | .defined _ u => isComparable u
  | .valuer s _ _ => isComparable s
  | _ => true
/-- Every field of a struct value is of a comparable type. -/
def fieldsComparable : List Value → Bool
  | [] => true
  | f :: fs => isComparable f && fieldsComparable fs
end

mutual
/-- Equality of two values of one comparable type: basic values by value,
pointers by address, struct values field by field. -/
def sameValue : Value → Value → Bool
  | .nil, .nil => true
  | .int a, .int b => a == b
  | .str a, .str b => a == b
  | .bool a, .bool b => a == b
  | .byte a, .byte b => a == b
  | .struct n fs, .struct m gs => n == m && sameFields fs gs
  | .ptr e a, .ptr e' b => e == e' && a == b
  | .defined n u, .defined m w => n == m && sameValue u w
  | .valuer s _ _, .valuer t _ _ => sameValue s t
  | _, _ => false
/-- Equality of the fields of two struct values of one type. -/
def sameFields : List Value → List Value → Bool
  | [], [] => true
  | f :: fs, g :: gs => sameValue f g && sameFields fs gs
  | _, _ => false
end

/-- The comparison `x == y` of two interface values: `some false` when the
dynamic types differ; otherwise `none`, the run-time panic "comparing
uncomparable type", when that one type is not comparable (a slice type, or a
struct type with a field of such a type, whatever the values of the fields
are); otherwise the equality of the two values. -/
def goEq (x y : Value) : Option Bool :=
  if x.typ ≠ y.typ then some false
  else if isComparable x && isComparable y then some (sameValue x y)
  else none

/-- The type assertion `value.(int)`: it holds for a value of type `int` only. -/
def assertInt : Value → Option Int
  | .int n => some n
  | _ => none

/-- The loop `for _, validator := range validators` of `Multi`. -/
def multiLoop : List ValidationFunc → Value → VResult
  | [], _ => .ret none
  | validator :: rest, value =>
    match validator value with
    | .panic msg => .panic msg
    | .ret (some err) => .ret (some err)
    | .ret none => multiLoop rest value

/-- Multi combines multiple validation functions. -/
def Multi (validators : List ValidationFunc) : ValidationFunc :=
  fun value => multiLoop validators value

/-- The loop `for _, validValue := range validValues` of `In`. -/
def inLoop : List Value → Value → VResult
  | [], value => .ret (some (.wrapf ErrNotInScope value))
  | validValue :: rest, value =>
    match goEq validValue value with
    | none => .panic "runtime error: comparing uncomparable type"
    | some true => .ret none
    | some false => inLoop rest value

/-- In checks if the value is within the provided values. -/
def In (validValues : List Value) : ValidationFunc :=
  fun value => inLoop validValues value

/-- Min checks if the value is greater than or equal to the minimum. -/
def Min (min : Int) : ValidationFunc :=
  fun value =>
    match assertInt value with
    | some intValue =>
      if intValue ≥ min then .ret none else .ret (some (.wrapf ErrNotInScope value))
    | none => .ret (some (.wrapf ErrNotInScope value))

/-- Max checks if the value is less than or equal to the maximum. -/
def Max (max : Int) : ValidationFunc :=
  fun value =>
    match assertInt value with
    | some intValue =>
      if intValue ≤ max then .ret none else .ret (some (.wrapf ErrNotInScope value))
    | none => .ret (some (.wrapf ErrNotInScope value))

/-- MinMax checks if the value is between or equal to the minimum and maximum. -/
def MinMax (min max : Int) : ValidationFunc :=
  fun value =>
    match assertInt value with
    | some intValue =>
      if min ≤ intValue ∧ intValue ≤ max then .ret none
      else .ret (some (.wrapf ErrNotInScope value))
    | none => .ret (some (.wrapf ErrNotInScope value))

/-! ## `utils.go` -/

/-- The function `strings.TrimLeft(s, cutset)` for a cutset of ASCII characters. -/
def TrimLeft (s cutset : List Char) : List Char :=
  s.dropWhile (fun c => cutset.contains c)

/-- The function `strings.TrimRight(s, cutset)` for a cutset of ASCII characters. -/
def TrimRight (s cutset : List Char) : List Char :=
  (s.reverse.dropWhile (fun c => cutset.contains c)).reverse

/-- The function `strings.Trim(s, cutset)` for a cutset of ASCII characters:
`trimLeftASCII(trimRightASCII(s, &as), &as)`. -/
def Trim (s cutset : List Char) : List Char :=
  TrimLeft (TrimRight s cutset) cutset

/-- The loop `for _, v := range list` of `cleanSliceString`, with the slice
`clean` built so far. -/
def cleanLoop : List (List Char) → List (List Char) → List (List Char)
  | [], clean => clean
  | v :: rest, clean =>
    if (Trim v [' ', Char.ofNat 9]).length > 0 then
      cleanLoop rest (clean ++ [Trim v [' ', Char.ofNat 9]])
    else
      cleanLoop rest clean

/-- CleanSliceString removes leading and trailing whitespace from each string
in the given slice and returns a new slice with the cleaned strings.  (A
`[]string` is a list; the nil slice is the empty list.) -/
def cleanSliceString (list : List (List Char)) : List (List Char) :=
  cleanLoop list []

/-- White space as `unicode.IsSpace` has it in Latin-1: tab, line feed,
vertical tab, form feed, carriage return, space, U+0085 and U+00A0. -/
def isSpace (c : Char) : Bool :=
  c.toNat = 9 || c.toNat = 10 || c.toNat = 11 || c.toNat = 12 || c.toNat = 13 ||
    c.toNat = 32 || c.toNat = 133 || c.toNat = 160

/-! ## Vocabulary of the claims -/

/-- Number of `?` placeholders of a query. -/
def countQ (q : List Char) : Nat := q.count '?'

/-- The text `?, ?, ..., ?`: `n` placeholder tokens joined by `", "`. -/
def placeholders (n : Nat) : List Char :=
  [',', ' '].intercalate (List.replicate n ['?'])

/-- The query `q` with its k-th `?` replaced by `ns[k]` placeholder tokens
joined by `", "`, every other character kept in place (a `?` beyond the
counts in `ns` is kept as it is). -/
def expandQuery : List Char → List Nat → List Char
  | [], _ => []
  | c :: cs, ns =>
    if c = '?' then
      match ns with
      | [] => c :: expandQuery cs []
      | n :: ns' => placeholders n ++ expandQuery cs ns'
    else
      c :: expandQuery cs ns

/-- The argument classifies as a sequence: the first loop of `in` takes the
slice branch for it. -/
def isSeq (a : Value) : Bool :=
  match classify a with
  | .ok (.slice _ _) => true
  | _ => false

/-- The argument classifies as a scalar: the first loop of `in` takes the
`else` branch for it. -/
def isScalar (a : Value) : Bool :=
  match classify a with
  | .ok (.scalar _) => true
  | _ => false

/-- The argument classifies as a sequence with zero elements. -/
def isEmptySeq (a : Value) : Bool :=
  match classify a with
  | .ok (.slice _ n) => n == 0
  | _ => false

/-- The count `N_k` of an argument: its element count when it classifies as
a sequence, 1 otherwise. -/
def tokenCount (a : Value) : Nat :=
  match classify a with
  | .ok (.slice _ n) => n
  | _ => 1

/-- What an argument contributes to the flattened list: the elements of the
classified value when it is a sequence, the classified value when it is a
scalar. -/
def flatValues (a : Value) : List Value :=
  match classify a with
  | .ok (.slice v _) => v.elems
  | .ok (.scalar i) => [i]
  | .error _ => []

/-- The record `meta[i]` the first loop of `in` stores for an argument. -/
def argMetaOf (a : Value) : ArgMeta :=
  match classify a with
  | .ok (.slice v n) => { v := v, length := n }
  | .ok (.scalar i) => { i := i }
  | .error _ => {}

/-- The arguments of a call: every one is classified and none is an empty sequence. -/
def Classified (args : List Value) : Prop :=
  ∀ a ∈ args, (isSeq a || isScalar a) = true ∧ isEmptySeq a = false

/-- Placeholder tokens the rewrite pass writes for one `argMeta`. -/
def ArgMeta.tokens (m : ArgMeta) : Nat := if m.length = 0 then 1 else m.length

/-- Values the rewrite pass appends to `newArgs` for one `argMeta`. -/
def ArgMeta.values (m : ArgMeta) : List Value := if m.length = 0 then [m.i] else m.v.elems

/-- An `argMeta` as the first loop builds it: a slice entry holds a valid
`reflect.Value` of the recorded length. -/
def ArgMeta.wf (m : ArgMeta) : Prop :=
  m.length ≠ 0 → m.v.typ ≠ none ∧ m.v.elems.length = m.length

/-! ## Lemmas on the helpers -/

theorem indexByte_none {s : List Char} {c : Char} (h : indexByte s c = none) : c ∉ s := by
  induction s with
  | nil => simp
  | cons x xs ih =>
    simp only [indexByte] at h
    split at h
    · simp at h
    · rename_i hx
      simp only [Option.map_eq_none'] at h
      simp only [List.mem_cons, not_or]
      exact ⟨fun hc => hx hc.symm, ih h⟩

theorem indexByte_some {s : List Char} {c : Char} {i : Nat} (h : indexByte s c = some i) :
    ∃ pre post, s = pre ++ c :: post ∧ c ∉ pre ∧ pre.length = i := by
  induction s generalizing i with
  | nil => simp [indexByte] at h
  | cons x xs ih =>
    simp only [indexByte] at h
    split at h
    · rename_i hx
      simp only [Option.some.injEq] at h
      exact ⟨[], xs, by simp [hx], by simp, by simpa using h⟩
    · rename_i hx
      simp only [Option.map_eq_some'] at h
      obtain ⟨j, hj, hji⟩ := h
      obtain ⟨pre, post, hs, hpre, hlen⟩ := ih hj
      refine ⟨x :: pre, post, by simp [hs], ?_, by simp [hlen, hji]⟩
      simp only [List.mem_cons, not_or]
      exact ⟨fun hc => hx hc.symm, hpre⟩

theorem placeholders_succ (n : Nat) :
    placeholders (n + 1) = '?' :: (List.replicate n [',', ' ', '?']).flatten := by
  induction n with
  | zero => rfl
  | succ k ih =>
    simp only [placeholders, List.replicate_succ, List.intercalate, List.intersperse,
      List.flatten_cons] at ih ⊢
    rw [ih]
    simp

theorem placeholders_one : placeholders 1 = ['?'] := rfl

theorem appendGroups_eq (buf : List Char) (n : Nat) :
    appendGroups buf n = buf ++ (List.replicate (n - 1) [',', ' ', '?']).flatten := by
  have key : ∀ (l : List Nat) (b : List Char),
      l.foldl (fun b _ => b ++ [',', ' ', '?']) b
        = b ++ (List.replicate l.length [',', ' ', '?']).flatten := by
    intro l
    induction l with
    | nil => intro b; simp
    | cons x xs ih =>
      intro b
      simp only [List.foldl_cons, ih, List.length_cons, List.replicate_succ, List.flatten_cons]
      simp
  simp [appendGroups, key]

theorem appendGroups_placeholders (buf : List Char) (n : Nat) (hn : n ≠ 0) :
    appendGroups (buf ++ ['?']) n = buf ++ placeholders n := by
  obtain ⟨k, rfl⟩ := Nat.exists_eq_succ_of_ne_zero hn
  rw [appendGroups_eq, placeholders_succ]
  simp

theorem expandQuery_of_not_mem {pre : List Char} (h : '?' ∉ pre) (rest : List Char)
    (ns : List Nat) : expandQuery (pre ++ rest) ns = pre ++ expandQuery rest ns := by
  induction pre with
  | nil => rfl
  | cons x xs ih =>
    simp only [List.mem_cons, not_or] at h
    have hx : ¬ x = '?' := fun e => h.1 e.symm
    simp [expandQuery, hx, ih h.2]

theorem expandQuery_no_placeholder {q : List Char} (h : '?' ∉ q) (ns : List Nat) :
    expandQuery q ns = q := by
  have := expandQuery_of_not_mem h [] ns
  simpa [expandQuery] using this

theorem countQ_split {pre post : List Char} (h : '?' ∉ pre) :
    countQ (pre ++ '?' :: post) = countQ post + 1 := by
  simp [countQ, List.count_append, List.count_eq_zero.mpr h]

theorem indexLoop_eq (v : Value) (rem si : Nat) (args : List Value)
    (h : si + rem ≤ v.elems.length) :
    indexLoop v rem si args = .ok (args ++ (v.elems.drop si).take rem) := by
  induction rem generalizing si args with
  | zero => simp [indexLoop]
  | succ k ih =>
    have hlt : si < v.elems.length := by omega
    simp only [indexLoop, List.getElem?_eq_getElem hlt]
    rw [ih (si + 1) _ (by omega), List.drop_eq_getElem_cons hlt, List.take_succ_cons]
    simp

theorem appendEach_eq (args val : List Value) : appendEach args val = args ++ val := by
  induction val generalizing args with
  | nil => simp [appendEach]
  | cons x xs ih =>
    simp only [appendEach, List.foldl_cons] at ih ⊢
    rw [ih]
    simp

/-- Every path of `appendReflectSlice` appends the elements of the slice. -/
theorem appendReflectSlice_eq (args : List Value) (v : Value) (vlen : Nat)
    (hv : v.typ ≠ none) (hlen : v.elems.length = vlen) :
    appendReflectSlice args v vlen = .ok (args ++ v.elems) := by
  have hgen : indexLoop v vlen 0 args = .ok (args ++ v.elems) := by
    rw [indexLoop_eq v vlen 0 args (by omega)]
    simp [← hlen]
  unfold appendReflectSlice
  split
  · rename_i h; exact absurd h hv
  · rfl
  · rw [appendEach_eq]
  · rw [appendEach_eq]
  · exact hgen

/-! ## The rewrite pass -/

/-- One run of the second loop of `in` from a state `st`, on well-formed
records: with more placeholders left than records the loop exits with the
error of line 63; otherwise it ends, having consumed one record per
placeholder, and `buf ++ query` and `newArgs` are as the expansion says. -/
theorem rewriteLoop_spec (meta : List ArgMeta) (hwf : ∀ m ∈ meta, m.wf) :
    ∀ (fuel : Nat) (st : LoopState), st.query.length - st.offset < fuel →
      (meta.length - st.arg < countQ (st.query.drop st.offset) →
        rewriteLoop meta fuel st
          = .error (.ret [] none (some "number of bindVars exceeds arguments"))) ∧
      (countQ (st.query.drop st.offset) ≤ meta.length - st.arg →
        ∃ st', rewriteLoop meta fuel st = .ok st' ∧
          st'.arg = st.arg + countQ (st.query.drop st.offset) ∧
          st'.buf ++ st'.query
            = st.buf ++ st.query.take st.offset
              ++ expandQuery (st.query.drop st.offset)
                  ((meta.drop st.arg).map ArgMeta.tokens) ∧
          st'.newArgs
            = st.newArgs
              ++ (((meta.drop st.arg).take (countQ (st.query.drop st.offset))).map
                    ArgMeta.values).flatten) := by
  intro fuel
  induction fuel with
  | zero => intro st h; omega
  | succ fuel ih =>
    intro st hfuel
    cases hidx : indexByte (st.query.drop st.offset) '?' with
    | none =>
      have hno := indexByte_none hidx
      have hc : countQ (st.query.drop st.offset) = 0 := by
        simpa [countQ, List.count_eq_zero] using hno
      refine ⟨fun h => by omega, fun _ => ⟨st, ?_, by omega, ?_, ?_⟩⟩
      · simp [rewriteLoop, hidx]
      · rw [expandQuery_no_placeholder hno, List.append_assoc, List.take_append_drop]
      · simp [hc]
    | some i =>
      obtain ⟨pre, post, hsplit, hpre, hlen⟩ := indexByte_some hidx
      have hc : countQ (st.query.drop st.offset) = countQ post + 1 := by
        rw [hsplit]; exact countQ_split hpre
      have hdrop : st.query.drop (st.offset + i + 1) = post := by
        rw [Nat.add_assoc, ← List.drop_drop, hsplit, ← hlen]
        simp
      have htake : st.query.take (st.offset + i + 1)
          = st.query.take st.offset ++ pre ++ ['?'] := by
        rw [Nat.add_assoc, List.take_add, hsplit, ← hlen]
        simp [List.take_append_eq_append_take]
      have hqlen : post.length + (st.offset + i + 1) ≤ st.query.length := by
        have h1 := congrArg List.length hsplit
        simp only [List.length_drop, List.length_append, List.length_cons] at h1
        omega
      cases hm : meta[st.arg]? with
      | none =>
        have harg : meta.length ≤ st.arg := by
          simpa [List.getElem?_eq_none_iff] using hm
        refine ⟨fun _ => ?_, fun h => by omega⟩
        simp [rewriteLoop, hidx, hm]
      | some m =>
        obtain ⟨harg, hget⟩ := List.getElem?_eq_some.mp hm
        have hmem : m ∈ meta := hget ▸ List.getElem_mem harg
        have hmdrop : meta.drop st.arg = m :: meta.drop (st.arg + 1) := by
          rw [List.drop_eq_getElem_cons harg, hget]
        by_cases hz : m.length = 0
        · -- a scalar record
          have step : rewriteLoop meta (fuel + 1) st
              = rewriteLoop meta fuel
                  { st with arg := st.arg + 1,
                            offset := st.offset + i + 1,
                            newArgs := st.newArgs ++ [m.i] } := by
            simp [rewriteLoop, hidx, hm, hz]
          obtain ⟨ih1, ih2⟩ := ih
            { st with arg := st.arg + 1,
                      offset := st.offset + i + 1,
                      newArgs := st.newArgs ++ [m.i] }
            (by simp only; omega)
          simp only [hdrop] at ih1 ih2
          rw [step]
          refine ⟨fun h => ih1 (by omega), fun h => ?_⟩
          obtain ⟨st', hst, ha, hb, hn⟩ := ih2 (by omega)
          refine ⟨st', hst, by omega, ?_, ?_⟩
          · rw [hb, htake, hsplit, hmdrop, expandQuery_of_not_mem hpre]
            simp [expandQuery, ArgMeta.tokens, hz, placeholders_one]
          · rw [hn, hc, hmdrop]
            simp [ArgMeta.values, hz]
        · -- a slice record
          obtain ⟨hty, hel⟩ := hwf m hmem hz
          have step : rewriteLoop meta (fuel + 1) st
              = rewriteLoop meta fuel
                  { query := st.query.drop (st.offset + i + 1),
                    offset := 0,
                    arg := st.arg + 1,
                    buf := appendGroups (st.buf ++ st.query.take (st.offset + i + 1)) m.length,
                    newArgs := st.newArgs ++ m.v.elems } := by
            simp [rewriteLoop, hidx, hm, hz, appendReflectSlice_eq _ _ _ hty hel]
          obtain ⟨ih1, ih2⟩ := ih
            { query := st.query.drop (st.offset + i + 1),
              offset := 0,
              arg := st.arg + 1,
              buf := appendGroups (st.buf ++ st.query.take (st.offset + i + 1)) m.length,
              newArgs := st.newArgs ++ m.v.elems }
            (by simp only [hdrop]; omega)
          simp only [hdrop, List.drop_zero, List.take_zero, List.append_nil] at ih1 ih2 step
          rw [step]
          refine ⟨fun h => ih1 (by omega), fun h => ?_⟩
          obtain ⟨st', hst, ha, hb, hn⟩ := ih2 (by omega)
          refine ⟨st', hst, by omega, ?_, ?_⟩
          · rw [hb, htake, hsplit, hmdrop, expandQuery_of_not_mem hpre,
              ← List.append_assoc st.buf, appendGroups_placeholders _ _ hz]
            simp [expandQuery, ArgMeta.tokens, hz]
          · rw [hn, hc, hmdrop]
            simp [ArgMeta.values, hz]

/-! ## The classification pass -/

theorem len_kind : ∀ (v : Value) (ty : GoType) (n : Nat), v.typ = some ty → v.Len = some n →
    (ty.Kind = .Slice ∧ v.elems.length = n) ∨ ty.Kind = .String
  | .nil, _, _, h, _ => by simp [Value.typ] at h
  | .int _, _, _, _, h => by simp [Value.Len] at h
  | .str _, ty, _, h, _ => by
    simp only [Value.typ, Option.some.injEq] at h
    subst h; exact Or.inr rfl
  | .bool _, _, _, _, h => by simp [Value.Len] at h
  | .byte _, _, _, _, h => by simp [Value.Len] at h
  | .struct _ _, _, _, _, h => by simp [Value.Len] at h
  | .slice e es, ty, n, h, hl => by
    simp only [Value.typ, Option.some.injEq] at h
    simp only [Value.Len, Option.some.injEq] at hl
    subst h; exact Or.inl ⟨rfl, hl⟩
  | .ptr _ _, _, _, _, h => by simp [Value.Len] at h
  | .defined name u, ty, n, h, hl => by
    simp only [Value.typ, Option.map_eq_some'] at h
    obtain ⟨tu, htu, rfl⟩ := h
    simpa [GoType.Kind, Value.elems] using len_kind u tu n htu hl
  | .valuer s _ _, ty, n, h, hl => by
    simpa [Value.elems] using len_kind s ty n h hl

theorem classify_slice {a v : Value} {n : Nat} (h : classify a = .ok (.slice v n)) :
    v = unwrapValuer a ∧ v.typ ≠ none ∧ v.elems.length = n := by
  unfold classify classifyValue at h
  simp only at h
  split at h
  · simp at h
  · rename_i ty hty
    split at h
    · rename_i hk
      split at h
      · simp at h
      · rename_i m hlen
        simp only [Except.ok.injEq, Class.slice.injEq] at h
        obtain ⟨rfl, rfl⟩ := h
        refine ⟨rfl, by simp [hty], ?_⟩
        rcases len_kind _ ty m hty hlen with h1 | h1
        · exact h1.2
        · exfalso
          have : deref ty = ty := by simp [deref, h1]
          rw [this, h1] at hk
          exact absurd hk.1 (by decide)
    · simp at h

theorem classify_scalar {a i : Value} (h : classify a = .ok (.scalar i)) :
    i = unwrapValuer a := by
  unfold classify classifyValue at h
  simp only at h
  split at h
  · simp at h
  · split at h
    · split at h <;> simp at h
    · simp only [Except.ok.injEq, Class.scalar.injEq] at h
      exact h.symm

theorem argMetaOf_wf (a : Value) : (argMetaOf a).wf := by
  unfold argMetaOf
  split
  · rename_i v n h
    intro _
    exact (classify_slice h).2
  · intro h; simp at h
  · intro h; simp at h

theorem argMetaOf_tokens {a : Value} (h : isEmptySeq a = false) :
    (argMetaOf a).tokens = tokenCount a := by
  unfold argMetaOf tokenCount ArgMeta.tokens
  unfold isEmptySeq at h
  cases hc : classify a with
  | error msg => simp
  | ok c =>
    cases c with
    | slice v n => simp only [hc, beq_eq_false_iff_ne] at h; simp [h]
    | scalar i => simp

theorem argMetaOf_values {a : Value} (h : isEmptySeq a = false)
    (hcl : (isSeq a || isScalar a) = true) :
    (argMetaOf a).values = flatValues a := by
  unfold argMetaOf flatValues ArgMeta.values
  unfold isEmptySeq at h
  unfold isSeq isScalar at hcl
  cases hc : classify a with
  | error msg => simp [hc] at hcl
  | ok c =>
    cases c with
    | slice v n => simp only [hc, beq_eq_false_iff_ne] at h; simp [h]
    | scalar i => simp

/-- The three ways the first loop of `in` can end: it classifies every
argument, or it returns the empty-slice error at an empty sequence, or it
panics at an argument that cannot be classified. -/
theorem classifyLoop_cases (args : List Value) :
    ∀ cs : ClassState,
      (∃ cs', classifyLoop args cs = .ok cs' ∧
          cs'.meta = cs.meta ++ args.map argMetaOf ∧
          cs'.anySlices = (cs.anySlices || args.any isSeq) ∧
          ∀ a ∈ args, (isSeq a || isScalar a) = true ∧ isEmptySeq a = false) ∨
      (classifyLoop args cs
          = .error (.ret [] none (some "empty slice passed to 'in' query")) ∧
          ∃ pre a post, args = pre ++ a :: post ∧ isEmptySeq a = true ∧
            ∀ b ∈ pre, (isSeq b || isScalar b) = true) ∨
      (∃ msg, classifyLoop args cs = .error (.panic msg) ∧
          ∃ pre a post, args = pre ++ a :: post ∧ (isSeq a || isScalar a) = false ∧
            ∀ b ∈ pre, isEmptySeq b = false) := by
  induction args with
  | nil => intro cs; left; exact ⟨cs, rfl, by simp, by simp, by simp⟩
  | cons a rest ih =>
    intro cs
    cases hc : classify a with
    | error msg =>
      right; right
      refine ⟨msg, by simp [classifyLoop, hc], [], a, rest, rfl, by simp [isSeq, isScalar, hc], by simp⟩
    | ok c =>
      cases c with
      | slice v n =>
        by_cases hn : n = 0
        · right; left
          refine ⟨by simp [classifyLoop, hc, hn], [], a, rest, rfl, by simp [isEmptySeq, hc, hn], by simp⟩
        · have step : classifyLoop (a :: rest) cs = classifyLoop rest
              { meta := cs.meta ++ [{ v := v, length := n }],
                anySlices := true,
                flatArgsCount := cs.flatArgsCount + n } := by
            simp [classifyLoop, hc, hn]
          have hme : argMetaOf a = { v := v, length := n } := by simp [argMetaOf, hc]
          have hs : isSeq a = true := by simp [isSeq, hc]
          have he : isEmptySeq a = false := by simp [isEmptySeq, hc, hn]
          rw [step]
          rcases ih { meta := cs.meta ++ [{ v := v, length := n }],
                      anySlices := true,
                      flatArgsCount := cs.flatArgsCount + n } with h | h | h
          · obtain ⟨cs', h1, h2, h3, h4⟩ := h
            left
            refine ⟨cs', h1, by simp [h2, hme], by simp [h3, hs], ?_⟩
            intro b hb
            rcases List.mem_cons.mp hb with rfl | hb
            · exact ⟨by simp [hs], he⟩
            · exact h4 b hb
          · obtain ⟨h1, pre, b, post, h2, h3, h4⟩ := h
            right; left
            refine ⟨h1, a :: pre, b, post, by simp [h2], h3, ?_⟩
            intro x hx
            rcases List.mem_cons.mp hx with rfl | hx
            · simp [hs]
            · exact h4 x hx
          · obtain ⟨msg, h1, pre, b, post, h2, h3, h4⟩ := h
            right; right
            refine ⟨msg, h1, a :: pre, b, post, by simp [h2], h3, ?_⟩
            intro x hx
            rcases List.mem_cons.mp hx with rfl | hx
            · exact he
            · exact h4 x hx
      | scalar i =>
        have step : classifyLoop (a :: rest) cs = classifyLoop rest
            { cs with meta := cs.meta ++ [{ i := i }],
                      flatArgsCount := cs.flatArgsCount + 1 } := by
          simp [classifyLoop, hc]
        have hme : argMetaOf a = { i := i } := by simp [argMetaOf, hc]
        have hs : isSeq a = false := by simp [isSeq, hc]
        have hsc : isScalar a = true := by simp [isScalar, hc]
        have he : isEmptySeq a = false := by simp [isEmptySeq, hc]
        rw [step]
        rcases ih { cs with meta := cs.meta ++ [{ i := i }],
                            flatArgsCount := cs.flatArgsCount + 1 } with h | h | h
        · obtain ⟨cs', h1, h2, h3, h4⟩ := h
          left
          refine ⟨cs', h1, by simp [h2, hme], by simp [h3, hs], ?_⟩
          intro b hb
          rcases List.mem_cons.mp hb with rfl | hb
          · exact ⟨by simp [hsc], he⟩
          · exact h4 b hb
        · obtain ⟨h1, pre, b, post, h2, h3, h4⟩ := h
          right; left
          refine ⟨h1, a :: pre, b, post, by simp [h2], h3, ?_⟩
          intro x hx
          rcases List.mem_cons.mp hx with rfl | hx
          · simp [hsc]
          · exact h4 x hx
        · obtain ⟨msg, h1, pre, b, post, h2, h3, h4⟩ := h
          right; right
          refine ⟨msg, h1, a :: pre, b, post, by simp [h2], h3, ?_⟩
          intro x hx
          rcases List.mem_cons.mp hx with rfl | hx
          · exact he
          · exact h4 x hx

/-! ## The whole of `in` -/

/-- The six ways a call of `in` can end. -/
theorem in_cases (query : List Char) (args : Option (List Value)) :
    (∃ msg, in_ query args = .panic msg ∧
        ∃ pre a post, args.getD [] = pre ++ a :: post ∧ (isSeq a || isScalar a) = false ∧
          ∀ b ∈ pre, isEmptySeq b = false) ∨
    (in_ query args = .ret [] none (some "empty slice passed to 'in' query") ∧
        ∃ pre a post, args.getD [] = pre ++ a :: post ∧ isEmptySeq a = true ∧
          ∀ b ∈ pre, (isSeq b || isScalar b) = true) ∨
    (Classified (args.getD []) ∧ (args.getD []).any isSeq = false ∧
        in_ query args = .ret query args none) ∨
    (Classified (args.getD []) ∧ (args.getD []).any isSeq = true ∧
        (args.getD []).length < countQ query ∧
        in_ query args = .ret [] none (some "number of bindVars exceeds arguments")) ∨
    (Classified (args.getD []) ∧ (args.getD []).any isSeq = true ∧
        countQ query < (args.getD []).length ∧
        in_ query args
          = .ret [] none (some "number of bindVars less than number of arguments")) ∨
    (Classified (args.getD []) ∧ (args.getD []).any isSeq = true ∧
        countQ query = (args.getD []).length ∧
        in_ query args
          = .ret (expandQuery query ((args.getD []).map tokenCount))
              (some ((args.getD []).map flatValues).flatten) none) := by
  rcases classifyLoop_cases (args.getD []) {} with h | h | h
  · obtain ⟨cs, h1, h2, h3, h4⟩ := h
    simp only [List.nil_append, Bool.false_or] at h2 h3
    cases hany : (args.getD []).any isSeq with
    | false =>
      right; right; left
      refine ⟨h4, rfl, ?_⟩
      rw [hany] at h3
      simp [in_, h1, h3]
    | true =>
      rw [hany] at h3
      have hwf : ∀ m ∈ cs.meta, m.wf := by
        intro m hm
        rw [h2] at hm
        obtain ⟨a, _, rfl⟩ := List.mem_map.mp hm
        exact argMetaOf_wf a
      have hlen : cs.meta.length = (args.getD []).length := by simp [h2]
      have htok : cs.meta.map ArgMeta.tokens = (args.getD []).map tokenCount := by
        rw [h2, List.map_map]
        apply List.map_congr_left
        intro a ha
        exact argMetaOf_tokens (h4 a ha).2
      have hval : cs.meta.map ArgMeta.values = (args.getD []).map flatValues := by
        rw [h2, List.map_map]
        apply List.map_congr_left
        intro a ha
        exact argMetaOf_values (h4 a ha).2 (h4 a ha).1
      obtain ⟨s1, s2⟩ := rewriteLoop_spec cs.meta hwf (query.length + 1) { query := query }
        (by simp)
      simp only [List.drop_zero, List.take_zero, List.append_nil, List.nil_append,
        Nat.sub_zero, Nat.zero_add] at s1 s2
      rcases Nat.lt_trichotomy (countQ query) (args.getD []).length with hlt | heq | hgt
      · right; right; right; right; left
        refine ⟨h4, rfl, hlt, ?_⟩
        obtain ⟨st, e1, e2, _, _⟩ := s2 (by omega)
        have : st.arg < cs.meta.length := by omega
        simp [in_, h1, h3, e1, this]
      · right; right; right; right; right
        refine ⟨h4, rfl, heq, ?_⟩
        obtain ⟨st, e1, e2, e3, e4⟩ := s2 (by omega)
        have : ¬ st.arg < cs.meta.length := by omega
        have htk : List.take (countQ query) cs.meta = cs.meta :=
          List.take_of_length_le (by omega)
        rw [htk, hval] at e4
        rw [htok] at e3
        simp [in_, h1, h3, e1, this, e3, e4]
      · right; right; right; left
        refine ⟨h4, rfl, hgt, ?_⟩
        simp [in_, h1, h3, s1 (by omega)]
  · obtain ⟨h1, h2⟩ := h
    right; left
    exact ⟨by simp [in_, h1], h2⟩
  · obtain ⟨msg, h1, h2⟩ := h
    left
    exact ⟨msg, by simp [in_, h1], h2⟩

/-- The call never runs out of the step budget of the model: the second
loop of `in` ends within `len(query) + 1` iterations. -/
theorem in_never_timeout (query : List Char) (args : Option (List Value)) :
    in_ query args ≠ .timeout := by
  rcases in_cases query args with h | h | h | h | h | h
  · obtain ⟨msg, h, _⟩ := h; simp [h]
  · simp [h.1]
  · simp [h.2.2]
  · simp [h.2.2.2]
  · simp [h.2.2.2]
  · simp [h.2.2.2]

/-- On classified arguments with a sequence among them the call runs the
rewrite pass, and its result is decided by the two counts alone. -/
theorem in_of_classified (query : List Char) (args : List Value)
    (hcl : Classified args) (hseq : args.any isSeq = true) :
    (countQ query = args.length →
      in_ query (some args)
        = .ret (expandQuery query (args.map tokenCount))
            (some (args.map flatValues).flatten) none) ∧
    (args.length < countQ query →
      in_ query (some args)
        = .ret [] none (some "number of bindVars exceeds arguments")) ∧
    (countQ query < args.length →
      in_ query (some args)
        = .ret [] none (some "number of bindVars less than number of arguments")) := by
  rcases in_cases query (some args) with h | h | h | h | h | h
  · obtain ⟨_, _, pre, a, post, h1, h2, _⟩ := h
    simp only [Option.getD_some] at h1
    have := (hcl a (by simp [h1])).1
    simp [h2] at this
  · obtain ⟨_, pre, a, post, h1, h2, _⟩ := h
    simp only [Option.getD_some] at h1
    have := (hcl a (by simp [h1])).2
    simp [h2] at this
  · obtain ⟨_, h1, _⟩ := h
    simp only [Option.getD_some] at h1
    simp [hseq] at h1
  · obtain ⟨_, _, h1, h2⟩ := h
    simp only [Option.getD_some] at h1
    exact ⟨fun e => by omega, fun _ => h2, fun e => by omega⟩
  · obtain ⟨_, _, h1, h2⟩ := h
    simp only [Option.getD_some] at h1
    exact ⟨fun e => by omega, fun e => by omega, fun _ => h2⟩
  · obtain ⟨_, _, h1, h2⟩ := h
    simp only [Option.getD_some] at h1 h2
    exact ⟨fun _ => h2, fun e => by omega, fun e => by omega⟩

/-- Without a sequence among classified arguments the call returns its
input: the query and the argument slice as given, and no error. -/
theorem in_of_scalars (query : List Char) (args : Option (List Value))
    (hsc : ∀ a ∈ args.getD [], isScalar a = true) :
    in_ query args = .ret query args none := by
  have hns : ∀ a ∈ args.getD [], isSeq a = false := by
    intro a ha
    have := hsc a ha
    unfold isScalar at this
    unfold isSeq
    split at this <;> simp_all
  have hany : (args.getD []).any isSeq = false := by
    simpa [List.any_eq_false] using hns
  rcases in_cases query args with h | h | h | h | h | h
  · obtain ⟨_, _, pre, a, post, h1, h2, _⟩ := h
    have := hsc a (by simp [h1])
    simp [this] at h2
  · obtain ⟨_, pre, a, post, h1, h2, _⟩ := h
    have h3 := hsc a (by simp [h1])
    unfold isScalar at h3
    unfold isEmptySeq at h2
    split at h3 <;> simp_all
  · exact h.2.2
  · rw [hany] at h; simp at h
  · rw [hany] at h; simp at h
  · rw [hany] at h; simp at h

/-- An empty sequence among the arguments makes the call return the
empty-slice error, provided the arguments before it are classified. -/
theorem in_of_empty_seq (query : List Char) (pre post : List Value) (a : Value)
    (ha : isEmptySeq a = true) (hpre : ∀ b ∈ pre, (isSeq b || isScalar b) = true) :
    in_ query (some (pre ++ a :: post))
      = .ret [] none (some "empty slice passed to 'in' query") := by
  have hnot : ¬ Classified (pre ++ a :: post) := by
    intro hcl
    have := (hcl a (by simp)).2
    simp [ha] at this
  rcases in_cases query (some (pre ++ a :: post)) with h | h | h | h | h | h
  · exfalso
    obtain ⟨_, _, pre2, b, post2, h1, h2, h3⟩ := h
    simp only [Option.getD_some] at h1
    -- the first unclassified argument lies before the empty sequence, or after it
    have hbpre : ¬ b ∈ pre := fun hb => by simpa [h2] using hpre b hb
    have hapre : ¬ a ∈ pre2 := fun hx => by simpa [ha] using h3 a hx
    rcases List.append_eq_append_iff.mp h1 with ⟨c, hc1, hc2⟩ | ⟨c, hc1, hc2⟩
    · cases c with
      | nil =>
        simp only [List.nil_append, List.cons.injEq] at hc2
        have hab : a = b := hc2.1
        subst hab
        unfold isEmptySeq at ha
        unfold isSeq at h2
        split at ha <;> simp_all
      | cons x xs =>
        simp only [List.cons_append, List.cons.injEq] at hc2
        exact hapre (by rw [hc1]; simp [hc2.1])
    · cases c with
      | nil =>
        simp only [List.nil_append, List.cons.injEq] at hc2
        have hab : b = a := hc2.1
        subst hab
        unfold isEmptySeq at ha
        unfold isSeq at h2
        split at ha <;> simp_all
      | cons x xs =>
        simp only [List.cons_append, List.cons.injEq] at hc2
        exact hbpre (by rw [hc1]; simp [hc2.1])
  · exact h.1
  · exact absurd h.1 hnot
  · exact absurd h.1 hnot
  · exact absurd h.1 hnot
  · exact absurd h.1 hnot

/-! ## Counting placeholders and values -/

theorem countQ_placeholders (n : Nat) : countQ (placeholders n) = n := by
  cases n with
  | zero => rfl
  | succ k =>
    rw [placeholders_succ]
    induction k with
    | zero => rfl
    | succ j ih =>
      simp only [countQ, List.replicate_succ, List.flatten_cons] at ih ⊢
      simp only [List.count_cons, List.count_append] at ih ⊢
      simp only [List.count_nil] at ih ⊢
      simp at ih ⊢
      omega

theorem countQ_expandQuery (q : List Char) :
    ∀ ns : List Nat, countQ q = ns.length → countQ (expandQuery q ns) = ns.sum := by
  induction q with
  | nil =>
    intro ns h
    simp only [countQ, List.count_nil] at h
    have : ns = [] := List.length_eq_zero.mp h.symm
    subst this
    rfl
  | cons c cs ih =>
    intro ns h
    by_cases hc : c = '?'
    · subst hc
      cases ns with
      | nil => simp [countQ] at h
      | cons n ns' =>
        have h' : countQ cs = ns'.length := by
          simp only [countQ, List.count_cons_self, List.length_cons] at h
          simpa [countQ] using h
        have e : expandQuery ('?' :: cs) (n :: ns') = placeholders n ++ expandQuery cs ns' := by
          simp [expandQuery]
        rw [e]
        have := ih ns' h'
        simp only [countQ, List.count_append] at this ⊢
        have hp := countQ_placeholders n
        simp only [countQ] at hp
        rw [hp, this]
        simp
    · have h' : countQ cs = ns.length := by
        have hne : ¬ (c == '?') = true := by simpa using hc
        simpa [countQ, List.count_cons, hne] using h
      have e : expandQuery (c :: cs) ns = c :: expandQuery cs ns := by
        simp [expandQuery, hc]
      rw [e]
      have := ih ns h'
      have hne : ¬ (c == '?') = true := by simpa using hc
      simpa [countQ, List.count_cons, hne] using this

theorem flatValues_length {a : Value} (hcl : (isSeq a || isScalar a) = true) :
    (flatValues a).length = tokenCount a := by
  unfold flatValues tokenCount
  unfold isSeq isScalar at hcl
  cases hc : classify a with
  | error msg => simp [hc] at hcl
  | ok c =>
    cases c with
    | slice v n => exact (classify_slice hc).2.2
    | scalar i => rfl

theorem flatten_flatValues_length (args : List Value) (hcl : Classified args) :
    (args.map flatValues).flatten.length = (args.map tokenCount).sum := by
  induction args with
  | nil => rfl
  | cons a rest ih =>
    have h1 := flatValues_length (hcl a (by simp)).1
    have h2 := ih (fun b hb => hcl b (by simp [hb]))
    simp only [List.map_cons, List.flatten_cons, List.length_append, List.sum_cons, h1, h2]

/-! ## Arguments classified as scalars inside a call -/

theorem isScalar_not_seq {a : Value} (h : isScalar a = true) :
    isSeq a = false ∧ isEmptySeq a = false ∧ tokenCount a = 1 := by
  unfold isScalar at h
  unfold isSeq isEmptySeq tokenCount
  split at h <;> simp_all

theorem flatValues_of_scalar {a i : Value} (h : classify a = .ok (.scalar i)) :
    flatValues a = [i] := by
  simp [flatValues, h]

/-- Without a value accessor an argument contributes itself when it is a
scalar and its own elements when it is a sequence. -/
theorem flatValues_no_accessor {a : Value} (h : unwrapValuer a = a)
    (hcl : (isSeq a || isScalar a) = true) :
    flatValues a = if isSeq a = true then a.elems else [a] := by
  unfold flatValues
  unfold isSeq isScalar at hcl
  unfold isSeq
  cases hc : classify a with
  | error msg => simp [hc] at hcl
  | ok c =>
    cases c with
    | slice v n => simp [(classify_slice hc).1, h]
    | scalar i => simp [classify_scalar hc, h]

/-- A scalar argument `w`, classified as `i`, among classified arguments with
a sequence among them: it takes one `?` and puts `i` in the flattened list. -/
theorem in_scalar_among (query : List Char) (pre post : List Value) (w i : Value)
    (hw : classify w = .ok (.scalar i))
    (hcl : Classified (pre ++ post)) (hseq : (pre ++ post).any isSeq = true)
    (hcount : countQ query = pre.length + 1 + post.length) :
    in_ query (some (pre ++ w :: post))
      = .ret (expandQuery query (pre.map tokenCount ++ 1 :: post.map tokenCount))
          (some ((pre.map flatValues).flatten ++ i :: (post.map flatValues).flatten))
          none := by
  have hsc : isScalar w = true := by simp [isScalar, hw]
  obtain ⟨h1, h2, h3⟩ := isScalar_not_seq hsc
  have hcl2 : Classified (pre ++ w :: post) := by
    intro a ha
    simp only [List.mem_append, List.mem_cons] at ha
    rcases ha with ha | rfl | ha
    · exact hcl a (by simp [ha])
    · exact ⟨by simp [hsc], h2⟩
    · exact hcl a (by simp [ha])
  have hseq2 : (pre ++ w :: post).any isSeq = true := by
    simp only [List.any_append, List.any_cons, Bool.or_eq_true] at hseq ⊢
    rcases hseq with h | h
    · exact Or.inl h
    · exact Or.inr (Or.inr h)
  have := (in_of_classified query (pre ++ w :: post) hcl2 hseq2).1
    (by simp only [List.length_append, List.length_cons]; omega)
  rw [this]
  simp [h3, flatValues_of_scalar hw]

/-- A sequence argument `w`, classified as the slice `v` of `n >= 1`
elements, among classified arguments: it takes one `?`, written back as `n`
tokens, and puts the elements of `v` in the flattened list. -/
theorem in_seq_among (query : List Char) (pre post : List Value) (w v : Value) (n : Nat)
    (hw : classify w = .ok (.slice v n)) (hn : n ≠ 0)
    (hcl : Classified (pre ++ post))
    (hcount : countQ query = pre.length + 1 + post.length) :
    in_ query (some (pre ++ w :: post))
      = .ret (expandQuery query (pre.map tokenCount ++ n :: post.map tokenCount))
          (some ((pre.map flatValues).flatten ++ v.elems ++ (post.map flatValues).flatten))
          none := by
  have hs : isSeq w = true := by simp [isSeq, hw]
  have he : isEmptySeq w = false := by simp [isEmptySeq, hw, hn]
  have hcl2 : Classified (pre ++ w :: post) := by
    intro a ha
    simp only [List.mem_append, List.mem_cons] at ha
    rcases ha with ha | rfl | ha
    · exact hcl a (by simp [ha])
    · exact ⟨by simp [hs], he⟩
    · exact hcl a (by simp [ha])
  have hseq2 : (pre ++ w :: post).any isSeq = true := by
    simp [hs]
  have := (in_of_classified query (pre ++ w :: post) hcl2 hseq2).1
    (by simp only [List.length_append, List.length_cons]; omega)
  rw [this]
  simp [tokenCount, flatValues, hw]

/-- A scalar argument among scalar arguments: the call returns its input. -/
theorem in_scalar_among_scalars (query : List Char) (pre post : List Value) (w : Value)
    (hw : isScalar w = true) (hsc : ∀ a ∈ pre ++ post, isScalar a = true) :
    in_ query (some (pre ++ w :: post)) = .ret query (some (pre ++ w :: post)) none := by
  apply in_of_scalars
  intro a ha
  simp only [Option.getD_some, List.mem_append, List.mem_cons] at ha
  rcases ha with ha | rfl | ha
  · exact hsc a (by simp [ha])
  · exact hw
  · exact hsc a (by simp [ha])

theorem classify_bytes (bs : List Value) :
    classify (.slice .uint8 bs) = .ok (.scalar (.slice .uint8 bs)) := by
  simp [classify, classifyValue, unwrapValuer, Value.typ, deref, GoType.Kind, bytesType]

theorem classifyValue_slice (elem : GoType) (es : List Value) (h : elem ≠ .uint8) :
    classifyValue (.slice elem es) = .ok (.slice (.slice elem es) es.length) := by
  simp [classifyValue, Value.typ, deref, GoType.Kind, bytesType, Value.Len, h]

/-! ## The claims -/

/-- C1, at the call `in("a = ? AND b IN (?)", nil, []int{1, 2})`: the query
has two `?`, the two arguments hold one non-empty `[]int` and no empty
sequence, and the call does not return the expanded query
`"a = ? AND b IN (?, ?)"`: it panics in `reflect.Value.Type`, called on the
zero `reflect.Value` of the nil argument. -/
theorem in_expand_nil_argument_panics :
    countQ "a = ? AND b IN (?)".toList = 2 ∧
    isSeq (ints [1, 2]) = true ∧ isEmptySeq (ints [1, 2]) = false ∧
    isSeq .nil = false ∧
    in_ "a = ? AND b IN (?)".toList (some [.nil, ints [1, 2]])
      = .panic "reflect: call of reflect.Value.Type on zero Value" :=
  ⟨rfl, rfl, rfl, rfl, rfl⟩

/-- C2, at the call `in("id IN (?) AND note = ?", []string{"1", "2"}, nil)`:
two `?`, two arguments without a value accessor, one non-empty `[]string`;
the call does not return the list `["1", "2", nil]`: it panics in
`reflect.Value.Type` on the nil argument. -/
theorem in_flatten_nil_argument_panics :
    countQ "id IN (?) AND note = ?".toList = 2 ∧
    isSeq (strings ["1", "2"]) = true ∧ isEmptySeq (strings ["1", "2"]) = false ∧
    unwrapValuer (strings ["1", "2"]) = strings ["1", "2"] ∧ unwrapValuer .nil = .nil ∧
    in_ "id IN (?) AND note = ?".toList (some [strings ["1", "2"], .nil])
      = .panic "reflect: call of reflect.Value.Type on zero Value" :=
  ⟨rfl, rfl, rfl, rfl, rfl, rfl⟩

/-- C3, at the call `in("id = ?", nil)`: no argument classifies as a
sequence, and the call does not return the query and the arguments as
given: it panics in `reflect.Value.Type` on the nil argument. -/
theorem in_scalars_nil_argument_panics :
    isSeq .nil = false ∧
    in_ "id = ?".toList (some [.nil])
      = .panic "reflect: call of reflect.Value.Type on zero Value" :=
  ⟨rfl, rfl⟩

/-- C4, at the call `in("a = ? AND b IN (?)", nil, []string{})`: the second
argument is an empty non-byte sequence, and the call does not return the
empty-slice error: it panics in `reflect.Value.Type` on the nil argument
that comes first. -/
theorem in_empty_slice_after_nil_panics :
    isEmptySeq (strings []) = true ∧
    in_ "a = ? AND b IN (?)".toList (some [.nil, strings []])
      = .panic "reflect: call of reflect.Value.Type on zero Value" :=
  ⟨rfl, rfl⟩

/-- C5, at the call `in("a = ? AND b IN (?) AND c = ?", nil, []int{1})`:
three `?` for two arguments, one of them a non-empty `[]int`, and the call
does not return the error "number of bindVars exceeds arguments": it panics
in `reflect.Value.Type` on the nil argument. -/
theorem in_count_mismatch_nil_argument_panics :
    countQ "a = ? AND b IN (?) AND c = ?".toList = 3 ∧
    isSeq (ints [1]) = true ∧ isEmptySeq (ints [1]) = false ∧
    in_ "a = ? AND b IN (?) AND c = ?".toList (some [.nil, ints [1]])
      = .panic "reflect: call of reflect.Value.Type on zero Value" :=
  ⟨rfl, rfl, rfl, rfl⟩

/-- C7: whenever `in` returns an error, the returned query is the empty
string and the returned argument list is nil; the error is one of the three
of `in`. -/
theorem in_error_returns_nothing (query q' : List Char) (args a' : Option (List Value))
    (e : String) (h : in_ query args = .ret q' a' (some e)) :
    q' = [] ∧ a' = none ∧
      (e = "empty slice passed to 'in' query" ∨
       e = "number of bindVars exceeds arguments" ∨
       e = "number of bindVars less than number of arguments") := by
  rcases in_cases query args with c | c | c | c | c | c
  · obtain ⟨msg, c, _⟩ := c
    rw [c] at h; simp at h
  · rw [c.1] at h
    simp only [Result.ret.injEq, Option.some.injEq] at h
    obtain ⟨rfl, rfl, rfl⟩ := h
    simp
  · rw [c.2.2] at h; simp at h
  · rw [c.2.2.2] at h
    simp only [Result.ret.injEq, Option.some.injEq] at h
    obtain ⟨rfl, rfl, rfl⟩ := h
    simp
  · rw [c.2.2.2] at h
    simp only [Result.ret.injEq, Option.some.injEq] at h
    obtain ⟨rfl, rfl, rfl⟩ := h
    simp
  · rw [c.2.2.2] at h; simp at h

/-- C7 at the three failing calls of the tests: empty slice, too many and
too few placeholders. -/
theorem in_error_returns_nothing_witness :
    in_ "id IN (?), id2 = ?".toList (some [strings ["1", "2"]])
      = .ret [] none (some "number of bindVars exceeds arguments") ∧
    (([] : List Char) = [] ∧ (none : Option (List Value)) = none ∧
      ("number of bindVars exceeds arguments" = "empty slice passed to 'in' query" ∨
       "number of bindVars exceeds arguments" = "number of bindVars exceeds arguments" ∨
       "number of bindVars exceeds arguments"
          = "number of bindVars less than number of arguments")) :=
  ⟨rfl, in_error_returns_nothing "id IN (?), id2 = ?".toList [] (some [strings ["1", "2"]])
    none "number of bindVars exceeds arguments" rfl⟩

/-- C6 as stated fails on the fast path: `in("id = ?", "1", "2")` returns
without error the query `"id = ?"`, which has one `?`, and the two
arguments as given. -/
theorem in_fast_path_count_mismatch :
    ¬ ∀ (query q' : List Char) (args : Option (List Value)) (a' : List Value),
        in_ query args = .ret q' (some a') none → a'.length = countQ q' := by
  intro h
  have := h "id = ?".toList "id = ?".toList (some [.str "1", .str "2"]) [.str "1", .str "2"] rfl
  revert this
  decide

/-- C6, amended: when `in` returns without error and at least one argument
classifies as a sequence, the length of the returned argument list equals the
number of `?` of the returned query. -/
theorem in_rewrite_length_eq_count (query q' : List Char) (args a' : Option (List Value))
    (h : in_ query args = .ret q' a' none)
    (hseq : (args.getD []).any isSeq = true) :
    (a'.getD []).length = countQ q' := by
  rcases in_cases query args with c | c | c | c | c | c
  · obtain ⟨msg, c, _⟩ := c
    rw [c] at h; simp at h
  · rw [c.1] at h; simp at h
  · rw [c.2.1] at hseq; simp at hseq
  · rw [c.2.2.2] at h; simp at h
  · rw [c.2.2.2] at h; simp at h
  · obtain ⟨hcl, _, hcount, c⟩ := c
    rw [c] at h
    simp only [Result.ret.injEq, and_true] at h
    obtain ⟨rfl, rfl⟩ := h
    simp only [Option.getD_some]
    rw [flatten_flatValues_length _ hcl, countQ_expandQuery _ _ (by simpa using hcount)]

/-- C6, amended, at `in("id IN (?) AND status = ?", []string{"1", "2"}, "active")`. -/
theorem in_rewrite_length_eq_count_witness :
    ([Value.str "1", .str "2", .str "active"]).length
      = countQ "id IN (?, ?) AND status = ?".toList :=
  in_rewrite_length_eq_count "id IN (?) AND status = ?".toList
    "id IN (?, ?) AND status = ?".toList (some [strings ["1", "2"], .str "active"])
    (some [.str "1", .str "2", .str "active"]) rfl rfl

/-- C8: a `[]byte` argument, empty or not, is classified as a scalar: it
is not a sequence and not an empty sequence; among scalar arguments it
leaves the call on the fast path, which returns its input; among classified
arguments with a sequence among them it takes exactly one `?`, written back
as one `?`, and stands in the returned list as the byte slice itself. -/
theorem bytes_argument_is_scalar (bs : List Value) :
    classify (.slice .uint8 bs) = .ok (.scalar (.slice .uint8 bs)) ∧
    isSeq (.slice .uint8 bs) = false ∧
    isEmptySeq (.slice .uint8 bs) = false ∧
    (∀ (query : List Char) (pre post : List Value),
      (∀ a ∈ pre ++ post, isScalar a = true) →
      in_ query (some (pre ++ .slice .uint8 bs :: post))
        = .ret query (some (pre ++ .slice .uint8 bs :: post)) none) ∧
    (∀ (query : List Char) (pre post : List Value),
      Classified (pre ++ post) → (pre ++ post).any isSeq = true →
      countQ query = pre.length + 1 + post.length →
      in_ query (some (pre ++ .slice .uint8 bs :: post))
        = .ret (expandQuery query (pre.map tokenCount ++ 1 :: post.map tokenCount))
            (some ((pre.map flatValues).flatten
                    ++ .slice .uint8 bs :: (post.map flatValues).flatten))
            none) := by
  have hc := classify_bytes bs
  have hsc : isScalar (.slice .uint8 bs) = true := by simp [isScalar, hc]
  refine ⟨hc, (isScalar_not_seq hsc).1, (isScalar_not_seq hsc).2.1, ?_, ?_⟩
  · intro query pre post h
    exact in_scalar_among_scalars query pre post _ hsc h
  · intro query pre post h1 h2 h3
    exact in_scalar_among query pre post _ _ hc h1 h2 h3

/-- C8 at `in("id IN (?) AND raw = ?", []int{1, 2}, []byte{})`: the empty
byte slice keeps its one `?` and is returned as one value. -/
theorem bytes_argument_is_scalar_witness :
    in_ "id IN (?) AND raw = ?".toList (some ([ints [1, 2]] ++ bytes [] :: []))
      = .ret "id IN (?, ?) AND raw = ?".toList
          (some [.int 1, .int 2, bytes []]) none :=
  (bytes_argument_is_scalar []).2.2.2.2 "id IN (?) AND raw = ?".toList [ints [1, 2]] []
    (by intro a ha
        simp only [List.append_nil, List.mem_singleton] at ha
        subst ha
        exact ⟨rfl, rfl⟩)
    rfl rfl

/-- C9: an argument with a value accessor is classified as the value its
accessor returns is, whatever the wrapper itself is (a sequence, even an
empty one) and whatever error the accessor returns.  When that value is a
scalar the wrapper is no sequence and no empty sequence: it leaves the call
on the fast path among scalars, and among classified arguments with a
sequence it takes one `?`, written back as one `?`.  When that value is a
non-byte slice of `N >= 1` elements the `?` of the wrapper is written back
as `N` tokens joined by `", "` and the `N` elements are returned in order,
in a query of its own and among other classified arguments. -/
theorem valuer_classified_by_result (self r : Value) (e : Option String) :
    classify (.valuer self r e) = classifyValue r ∧
    (classifyValue r = .ok (.scalar r) →
      isSeq (.valuer self r e) = false ∧
      isEmptySeq (.valuer self r e) = false ∧
      (∀ (query : List Char) (pre post : List Value),
        (∀ a ∈ pre ++ post, isScalar a = true) →
        in_ query (some (pre ++ .valuer self r e :: post))
          = .ret query (some (pre ++ .valuer self r e :: post)) none) ∧
      (∀ (query : List Char) (pre post : List Value),
        Classified (pre ++ post) → (pre ++ post).any isSeq = true →
        countQ query = pre.length + 1 + post.length →
        in_ query (some (pre ++ .valuer self r e :: post))
          = .ret (expandQuery query (pre.map tokenCount ++ 1 :: post.map tokenCount))
              (some ((pre.map flatValues).flatten ++ r :: (post.map flatValues).flatten))
              none)) ∧
    (∀ (elem : GoType) (es : List Value) (pre post : List Char),
      r = .slice elem es → elem ≠ .uint8 → es ≠ [] → '?' ∉ pre → '?' ∉ post →
      in_ (pre ++ '?' :: post) (some [.valuer self r e])
        = .ret (pre ++ placeholders es.length ++ post) (some es) none) ∧
    (∀ (elem : GoType) (es : List Value) (query : List Char) (pre post : List Value),
      r = .slice elem es → elem ≠ .uint8 → es ≠ [] →
      Classified (pre ++ post) → countQ query = pre.length + 1 + post.length →
      in_ query (some (pre ++ .valuer self r e :: post))
        = .ret (expandQuery query (pre.map tokenCount ++ es.length :: post.map tokenCount))
            (some ((pre.map flatValues).flatten ++ es ++ (post.map flatValues).flatten))
            none) := by
  have h0 : classify (.valuer self r e) = classifyValue r := rfl
  refine ⟨h0, ?_, ?_, ?_⟩
  · intro hr
    have hc : classify (.valuer self r e) = .ok (.scalar r) := h0.trans hr
    have hsc : isScalar (.valuer self r e) = true := by simp [isScalar, hc]
    refine ⟨(isScalar_not_seq hsc).1, (isScalar_not_seq hsc).2.1, ?_, ?_⟩
    · intro query pre post h
      exact in_scalar_among_scalars query pre post _ hsc h
    · intro query pre post h1 h2 h3
      exact in_scalar_among query pre post _ _ hc h1 h2 h3
  · intro elem es pre post hr helem hes hpre hpost
    subst hr
    have hc : classify (.valuer self (.slice elem es) e)
        = .ok (.slice (.slice elem es) es.length) :=
      h0.trans (classifyValue_slice elem es helem)
    have hne : es.length ≠ 0 := fun h => hes (List.length_eq_zero.mp h)
    have hq : countQ (pre ++ '?' :: post) = ([] : List Value).length + 1 + ([] : List Value).length := by
      rw [countQ_split hpre]
      simp [countQ, List.count_eq_zero.mpr hpost]
    have := in_seq_among (pre ++ '?' :: post) [] [] _ _ _ hc hne (by intro a ha; simp at ha) hq
    simp only [List.nil_append] at this
    rw [this]
    simp [Value.elems, expandQuery_of_not_mem hpre, expandQuery,
      expandQuery_no_placeholder hpost]
  · intro elem es query pre post hr helem hes hcl hcount
    subst hr
    have hc : classify (.valuer self (.slice elem es) e)
        = .ok (.slice (.slice elem es) es.length) :=
      h0.trans (classifyValue_slice elem es helem)
    have hne : es.length ≠ 0 := fun h => hes (List.length_eq_zero.mp h)
    exact in_seq_among query pre post _ _ _ hc hne hcl hcount

/-- C9 at a wrapper that is itself an empty `[]int` and whose accessor
returns the string `"NULL"` (as `MyValuer` of the tests does), next to
`[]int{1, 2}`: no empty-slice error, one `?` for the wrapper, and at a
wrapper whose accessor returns `[]string{"a", "b"}`. -/
theorem valuer_classified_by_result_witness :
    in_ "id IN (?) AND tag = ?".toList
        (some ([ints [1, 2]] ++ .valuer (ints []) (.str "NULL") none :: []))
      = .ret "id IN (?, ?) AND tag = ?".toList (some [.int 1, .int 2, .str "NULL"]) none ∧
    in_ "tag IN (?)".toList (some [.valuer (.struct "Tags" []) (strings ["a", "b"]) none])
      = .ret "tag IN (?, ?)".toList (some [.str "a", .str "b"]) none :=
  ⟨((valuer_classified_by_result (ints []) (.str "NULL") none).2.1 rfl).2.2.2
      "id IN (?) AND tag = ?".toList [ints [1, 2]] []
      (by intro a ha
          simp only [List.append_nil, List.mem_singleton] at ha
          subst ha
          exact ⟨rfl, rfl⟩)
      rfl rfl,
   (valuer_classified_by_result (.struct "Tags" []) (strings ["a", "b"]) none).2.2.1
      .string [.str "a", .str "b"] "tag IN (".toList ")".toList rfl (by decide) (by simp)
      (by decide) (by decide)⟩

/-- C10 as stated fails on nested slices: `in("?", [][]int{{1, 2}})` returns
`("?", [[]int{1, 2}])`, and `in` on that result returns `("?, ?", [1, 2])`. -/
theorem in_not_idempotent_on_nested_slice :
    ¬ ∀ (query q' : List Char) (args a' : Option (List Value)),
        in_ query args = .ret q' a' none → in_ q' a' = .ret q' a' none := by
  intro h
  have h1 := h "?".toList "?".toList (some [.slice (.slice .int) [ints [1, 2]]])
    (some [ints [1, 2]]) rfl
  have h2 : in_ "?".toList (some [ints [1, 2]])
      = .ret "?, ?".toList (some [.int 1, .int 2]) none := rfl
  rw [h2] at h1
  have h3 := (Result.ret.inj h1).1
  revert h3
  decide

/-- C10, amended: when `in` succeeds with `(q', a')` and every value of `a'`
classifies as a scalar, `in` on `q'` and `a'` succeeds and returns `(q', a')`. -/
theorem in_idempotent_on_scalars (query q' : List Char) (args a' : Option (List Value))
    (_h : in_ query args = .ret q' a' none)
    (hsc : ∀ x ∈ a'.getD [], isScalar x = true) :
    in_ q' a' = .ret q' a' none :=
  in_of_scalars q' a' hsc

/-- C10, amended, at `in("id IN (?)", []string{"1", "2"})`, whose result
`("id IN (?, ?)", ["1", "2"])` is returned again by a second call. -/
theorem in_idempotent_on_scalars_witness :
    in_ "id IN (?)".toList (some [strings ["1", "2"]])
      = .ret "id IN (?, ?)".toList (some [.str "1", .str "2"]) none ∧
    in_ "id IN (?, ?)".toList (some [.str "1", .str "2"])
      = .ret "id IN (?, ?)".toList (some [.str "1", .str "2"]) none :=
  ⟨rfl, in_idempotent_on_scalars "id IN (?)".toList "id IN (?, ?)".toList
    (some [strings ["1", "2"]]) (some [.str "1", .str "2"]) rfl
    (by intro x hx
        simp only [Option.getD_some, List.mem_cons, List.mem_singleton, List.not_mem_nil,
          or_false] at hx
        rcases hx with rfl | rfl <;> rfl)⟩

/-- A pointer to a non-byte slice cannot be classified: its type is
dereferenced to a slice type, and `v.Len()` is then called on the pointer. -/
theorem classify_ptr_slice (elem : GoType) (addr : Nat) (h : elem ≠ .uint8) :
    classify (.ptr (.slice elem) addr)
      = .error "reflect: call of reflect.Value.Len on ptr Value" := by
  simp [classify, classifyValue, unwrapValuer, Value.typ, deref, GoType.Kind, GoType.Elem,
    bytesType, Value.Len, h]

/-- C11, at the calls `in("id IN (?)", &[]int{1, 2})` and
`in("name IN (?)", &[]string{"a"})`: `deref` resolves the type of the
argument to the slice type, so the slice branch is taken, and the call does
not return the expanded query: it panics in `reflect.Value.Len`, called on
the pointer itself. -/
theorem in_pointer_to_slice_panics :
    deref (.ptr (.slice .int)) = .slice .int ∧
    in_ "id IN (?)".toList (some [.ptr (.slice .int) 1])
      = .panic "reflect: call of reflect.Value.Len on ptr Value" ∧
    in_ "name IN (?)".toList (some [.ptr (.slice .string) 1])
      = .panic "reflect: call of reflect.Value.Len on ptr Value" :=
  ⟨rfl, rfl, rfl⟩

/-- C12, at three calls: `in("name = ?", sql.NullString{})`, whose accessor
returns `(nil, nil)`; a call whose accessor returns nil and an error; and
`in("id IN (?) AND name = ?", []int{1, 2}, nil)`.  None returns a result or
one of the three errors of `in`: each panics in `reflect.Value.Type`, called
on the zero `reflect.Value` of the nil value. -/
theorem in_null_value_panics :
    in_ "name = ?".toList
        (some [.valuer (.struct "sql.NullString" [.str "", .bool false]) .nil none])
      = .panic "reflect: call of reflect.Value.Type on zero Value" ∧
    in_ "name = ?".toList (some [.valuer (.struct "Failing" []) .nil (some "no value")])
      = .panic "reflect: call of reflect.Value.Type on zero Value" ∧
    in_ "id IN (?) AND name = ?".toList (some [ints [1, 2], .nil])
      = .panic "reflect: call of reflect.Value.Type on zero Value" :=
  ⟨rfl, rfl, rfl⟩

/-- C16, at the call of the test "Too few bindVars",
`in("id = ?", []string{"1", "2"}, &s)`: the call returns the empty query, the
nil list and an error, and the message of that error is
"number of bindVars less than number of arguments", which is not the message
"number of bindVars less than number arguments" the test asserts. -/
theorem in_too_few_message_differs :
    in_ "id = ?".toList (some [strings ["1", "2"], .ptr .string 1])
      = .ret [] none (some "number of bindVars less than number of arguments") ∧
    "number of bindVars less than number of arguments"
      ≠ "number of bindVars less than number arguments" :=
  ⟨rfl, by decide⟩

/-- C17, at the call of the test "Skip not slice",
`in("id IN (?), id2 = ?", "1", []interface{}{"2"})`: the scalar `"1"` is
skipped and keeps its `?`, the one-element slice keeps one `?`, and the call
returns the query as it was given, `"id IN (?), id2 = ?"`, with
`["1", "2"]`; that query is not `"id IN (?) AND id2 = ?"`, the one the test
asserts. -/
theorem in_skip_scalar_query_differs :
    isScalar (.str "1") = true ∧
    in_ "id IN (?), id2 = ?".toList (some [.str "1", .slice .iface [.str "2"]])
      = .ret "id IN (?), id2 = ?".toList (some [.str "1", .str "2"]) none ∧
    "id IN (?), id2 = ?".toList ≠ "id IN (?) AND id2 = ?".toList :=
  ⟨rfl, rfl, by decide⟩

/-- C19: for a valid slice `v` whose element count is the length argument,
`appendReflectSlice` returns the target list followed by the elements of `v`
in order, whichever of its four paths is taken; that is also what the
generic per-index loop returns for the same elements, so the specialised
paths (`[]interface{}`, `[]int`, `[]string`) agree with it. -/
theorem appendReflectSlice_appends (args : List Value) (v : Value) (vlen : Nat)
    (hv : v.typ ≠ none) (hlen : v.elems.length = vlen) :
    appendReflectSlice args v vlen = .ok (args ++ v.elems) ∧
    indexLoop v vlen 0 args = .ok (args ++ v.elems) ∧
    (∀ es : List Value,
      appendReflectSlice args (.slice .iface es) es.length
        = indexLoop (.slice .iface es) es.length 0 args ∧
      appendReflectSlice args (.slice .int es) es.length
        = indexLoop (.slice .int es) es.length 0 args ∧
      appendReflectSlice args (.slice .string es) es.length
        = indexLoop (.slice .string es) es.length 0 args) := by
  have hgen : ∀ (w : Value), indexLoop w w.elems.length 0 args = .ok (args ++ w.elems) := by
    intro w
    rw [indexLoop_eq w w.elems.length 0 args (by omega)]
    simp
  refine ⟨appendReflectSlice_eq args v vlen hv hlen, ?_, ?_⟩
  · rw [← hlen]; exact hgen v
  · intro es
    refine ⟨?_, ?_, ?_⟩
    · rw [appendReflectSlice_eq _ _ _ (by simp [Value.typ]) (by simp [Value.elems])]
      exact (hgen (.slice .iface es)).symm
    · rw [appendReflectSlice_eq _ _ _ (by simp [Value.typ]) (by simp [Value.elems])]
      exact (hgen (.slice .int es)).symm
    · rw [appendReflectSlice_eq _ _ _ (by simp [Value.typ]) (by simp [Value.elems])]
      exact (hgen (.slice .string es)).symm

/-- C19 at the target `["0"]` and the slice `[]string{"1", "2"}`. -/
theorem appendReflectSlice_appends_witness :
    appendReflectSlice [.str "0"] (strings ["1", "2"]) 2
      = .ok [.str "0", .str "1", .str "2"] :=
  (appendReflectSlice_appends [.str "0"] (strings ["1", "2"]) 2 (by simp [strings, Value.typ])
    rfl).1

/-- A wrapper is never the value its own accessor returns. -/
theorem valuer_ne_result (self r : Value) (e : Option String) : Value.valuer self r e ≠ r := by
  intro h
  have := congrArg sizeOf h
  simp only [Value.valuer.sizeOf_spec] at this
  omega

/-- C20: let `w` be an argument with a value accessor that returns `r`, a
scalar.  Whenever `in` succeeds on arguments `pre ++ w :: post` with a
sequence among the others, the returned list holds `r` at the place of `w`,
between the flattened `pre` and the flattened `post`, whatever error the
accessor returned.  Whenever `in` returns without error on arguments with
no sequence among them, it returns the query and the arguments as given, so
the list holds `w` itself.  The two forms differ: `w` is not `r`. -/
theorem valuer_returned_in_two_forms (self r : Value) (e : Option String)
    (hr : classifyValue r = .ok (.scalar r)) :
    (∀ (query q' : List Char) (pre post a' : List Value),
      (pre ++ post).any isSeq = true →
      in_ query (some (pre ++ .valuer self r e :: post)) = .ret q' (some a') none →
      a' = (pre.map flatValues).flatten ++ r :: (post.map flatValues).flatten) ∧
    (∀ (query q' : List Char) (pre post : List Value) (a' : Option (List Value)),
      (pre ++ post).any isSeq = false →
      in_ query (some (pre ++ .valuer self r e :: post)) = .ret q' a' none →
      q' = query ∧ a' = some (pre ++ .valuer self r e :: post)) ∧
    Value.valuer self r e ≠ r := by
  have hc : classify (.valuer self r e) = .ok (.scalar r) := hr
  have hsc : isScalar (.valuer self r e) = true := by simp [isScalar, hc]
  have hns : isSeq (.valuer self r e) = false := (isScalar_not_seq hsc).1
  refine ⟨?_, ?_, valuer_ne_result self r e⟩
  · intro query q' pre post a' hseq h
    rcases in_cases query (some (pre ++ .valuer self r e :: post)) with c | c | c | c | c | c
    · obtain ⟨msg, c, _⟩ := c
      rw [c] at h; simp at h
    · rw [c.1] at h; simp at h
    · have := c.2.1
      simp only [Option.getD_some, List.any_append, List.any_cons, hns, Bool.false_or] at this
      simp only [List.any_append] at hseq
      rw [this] at hseq
      simp at hseq
    · rw [c.2.2.2] at h; simp at h
    · rw [c.2.2.2] at h; simp at h
    · rw [c.2.2.2] at h
      simp only [Result.ret.injEq, Option.some.injEq, and_true] at h
      rw [← h.2]
      simp [flatValues_of_scalar hc]
  · intro query q' pre post a' hseq h
    have hany : ((some (pre ++ Value.valuer self r e :: post)).getD []).any isSeq = false := by
      simp only [List.any_append] at hseq
      simp only [Option.getD_some, List.any_append, List.any_cons, hns, Bool.false_or]
      exact hseq
    rcases in_cases query (some (pre ++ .valuer self r e :: post)) with c | c | c | c | c | c
    · obtain ⟨msg, c, _⟩ := c
      rw [c] at h; simp at h
    · rw [c.1] at h; simp at h
    · rw [c.2.2] at h
      simp only [Result.ret.injEq, and_true] at h
      exact ⟨h.1.symm, h.2.symm⟩
    · rw [hany] at c; simp at c
    · rw [hany] at c; simp at c
    · rw [hany] at c; simp at c

/-- C20 at `MyValuer{}` of the tests, whose accessor returns `"NULL"`: next
to `[]int{1, 2}` the call returns `"NULL"` in its place, alone it is
returned as it is. -/
theorem valuer_returned_in_two_forms_witness :
    in_ "id IN (?) AND tag = ?".toList (some ([ints [1, 2]] ++ myValuer :: []))
      = .ret "id IN (?, ?) AND tag = ?".toList (some [.int 1, .int 2, .str "NULL"]) none ∧
    [Value.int 1, .int 2, .str "NULL"]
      = ([ints [1, 2]].map flatValues).flatten ++ .str "NULL" :: (([] : List Value).map flatValues).flatten ∧
    in_ "id IN (?)".toList (some ([] ++ myValuer :: []))
      = .ret "id IN (?)".toList (some [myValuer]) none ∧
    ("id IN (?)".toList = "id IN (?)".toList ∧
      some [myValuer] = some (([] : List Value) ++ myValuer :: [])) :=
  ⟨rfl,
   (valuer_returned_in_two_forms (.struct "MyValuer" []) (.str "NULL") none rfl).1
      "id IN (?) AND tag = ?".toList "id IN (?, ?) AND tag = ?".toList [ints [1, 2]] []
      [.int 1, .int 2, .str "NULL"] rfl rfl,
   rfl,
   (valuer_returned_in_two_forms (.struct "MyValuer" []) (.str "NULL") none rfl).2.1
      "id IN (?)".toList "id IN (?)".toList [] [] (some [myValuer]) rfl rfl⟩

/-! ## The validators -/

theorem multiLoop_eq_nil (validators : List ValidationFunc) (value : Value) :
    multiLoop validators value = .ret none ↔ ∀ v ∈ validators, v value = .ret none := by
  induction validators with
  | nil => simp [multiLoop]
  | cons v rest ih =>
    simp only [multiLoop, List.mem_cons, forall_eq_or_imp]
    cases hv : v value with
    | panic msg => simp
    | ret err =>
      cases err with
      | none => simpa using ih
      | some e => simp

theorem multiLoop_first_failure (pre post : List ValidationFunc) (v : ValidationFunc)
    (value : Value) (r : VResult) (hpre : ∀ p ∈ pre, p value = .ret none)
    (hv : v value = r) (hr : r ≠ .ret none) :
    multiLoop (pre ++ v :: post) value = r := by
  induction pre with
  | nil =>
    subst hv
    simp only [List.nil_append, multiLoop]
    cases h : v value with
    | panic msg => rfl
    | ret err =>
      cases err with
      | none => exact absurd h hr
      | some e => rfl
  | cons p rest ih =>
    have hp : p value = .ret none := hpre p (by simp)
    simp only [List.cons_append, multiLoop, hp]
    exact ih (fun q hq => hpre q (by simp [hq]))

/-- C13: `Multi(validators...)(value)` returns nil if and only if every
validator of the list returns nil on the value, so `Multi()` succeeds on
every value; and when the validators before `v` all succeed and `v` returns
the error `err`, `Multi` returns `err`, whatever the validators after `v`
are or would do. -/
theorem Multi_returns_first_failure (validators : List ValidationFunc) (value : Value) :
    (Multi validators value = .ret none ↔ ∀ v ∈ validators, v value = .ret none) ∧
    (∀ (pre post : List ValidationFunc) (v : ValidationFunc) (err : GoErr),
      validators = pre ++ v :: post → (∀ p ∈ pre, p value = .ret none) →
      v value = .ret (some err) → Multi validators value = .ret (some err)) ∧
    Multi [] value = .ret none := by
  refine ⟨multiLoop_eq_nil validators value, ?_, rfl⟩
  intro pre post v err hsplit hpre hv
  subst hsplit
  exact multiLoop_first_failure pre post v value _ hpre hv (by simp)

/-- C13 at the scenario of the spec: `Multi(Min(10), Max(100))` fails on `5`
with the error of `Min(10)` and succeeds on `50`. -/
theorem Multi_returns_first_failure_witness :
    Multi [Min 10, Max 100] (.int 5) = .ret (some (.wrapf ErrNotInScope (.int 5))) ∧
    Multi [Min 10, Max 100] (.int 50) = .ret none :=
  ⟨(Multi_returns_first_failure [Min 10, Max 100] (.int 5)).2.1 [] [Max 100] (Min 10)
      (.wrapf ErrNotInScope (.int 5)) rfl (by simp) rfl,
   (Multi_returns_first_failure [Min 10, Max 100] (.int 50)).1.mpr (by
      intro v hv
      simp only [List.mem_cons, List.mem_singleton, List.not_mem_nil, or_false] at hv
      rcases hv with rfl | rfl <;> rfl)⟩

theorem assertInt_eq_some (value : Value) (n : Int) :
    assertInt value = some n ↔ value = .int n := by
  cases value <;> simp [assertInt]

theorem assertInt_eq_none (value : Value) :
    assertInt value = none ↔ ∀ n, value ≠ .int n := by
  cases value <;> simp [assertInt]

/-- C14: `MinMax(m, x)` succeeds exactly on the values of type `int` between
`m` and `x`, `Min(m)` on those at least `m`, `Max(x)` on those at most `x`;
`MinMax(m, x)` returns on every value what `Multi(Min(m), Max(x))` returns,
so the two succeed together; on every other value, and on every value when
`m > x`, `MinMax(m, x)` returns `errors.Wrapf(ErrNotInScope, "%v", value)`,
an error whose cause is `ErrNotInScope`. -/
theorem MinMax_iff_in_range (m x : Int) (value : Value) :
    (MinMax m x value = .ret none ↔ ∃ n, value = .int n ∧ m ≤ n ∧ n ≤ x) ∧
    (Min m value = .ret none ↔ ∃ n, value = .int n ∧ m ≤ n) ∧
    (Max x value = .ret none ↔ ∃ n, value = .int n ∧ n ≤ x) ∧
    MinMax m x value = Multi [Min m, Max x] value ∧
    (MinMax m x value = .ret none ↔ Multi [Min m, Max x] value = .ret none) ∧
    ((¬ ∃ n, value = .int n ∧ m ≤ n ∧ n ≤ x) →
      MinMax m x value = .ret (some (.wrapf ErrNotInScope value))) ∧
    (x < m → MinMax m x value = .ret (some (.wrapf ErrNotInScope value))) ∧
    (GoErr.wrapf ErrNotInScope value).Cause = ErrNotInScope := by
  have heq : MinMax m x value = Multi [Min m, Max x] value := by
    cases h : assertInt value with
    | none => simp [MinMax, Multi, multiLoop, Min, h]
    | some n =>
      by_cases h1 : m ≤ n <;> by_cases h2 : n ≤ x <;>
        simp [MinMax, Multi, multiLoop, Min, Max, h, h1, h2]
  have hmm : MinMax m x value = .ret none ↔ ∃ n, value = .int n ∧ m ≤ n ∧ n ≤ x := by
    cases h : assertInt value with
    | none =>
      have := (assertInt_eq_none value).mp h
      simp only [MinMax, h]
      constructor
      · intro hc; simp at hc
      · rintro ⟨n, hn, _⟩; exact absurd hn (this n)
    | some n =>
      have hv := (assertInt_eq_some value n).mp h
      subst hv
      by_cases h1 : m ≤ n <;> by_cases h2 : n ≤ x <;> simp [MinMax, assertInt, h1, h2]
  have hmin : Min m value = .ret none ↔ ∃ n, value = .int n ∧ m ≤ n := by
    cases h : assertInt value with
    | none =>
      have := (assertInt_eq_none value).mp h
      simp only [Min, h]
      constructor
      · intro hc; simp at hc
      · rintro ⟨n, hn, _⟩; exact absurd hn (this n)
    | some n =>
      have hv := (assertInt_eq_some value n).mp h
      subst hv
      by_cases h1 : m ≤ n <;> simp [Min, assertInt, h1]
  have hmax : Max x value = .ret none ↔ ∃ n, value = .int n ∧ n ≤ x := by
    cases h : assertInt value with
    | none =>
      have := (assertInt_eq_none value).mp h
      simp only [Max, h]
      constructor
      · intro hc; simp at hc
      · rintro ⟨n, hn, _⟩; exact absurd hn (this n)
    | some n =>
      have hv := (assertInt_eq_some value n).mp h
      subst hv
      by_cases h2 : n ≤ x <;> simp [Max, assertInt, h2]
  have hfail : (¬ ∃ n, value = .int n ∧ m ≤ n ∧ n ≤ x) →
      MinMax m x value = .ret (some (.wrapf ErrNotInScope value)) := by
    intro hno
    cases h : assertInt value with
    | none => simp [MinMax, h]
    | some n =>
      have hv := (assertInt_eq_some value n).mp h
      have : ¬ (m ≤ n ∧ n ≤ x) := fun hc => hno ⟨n, hv, hc⟩
      simp [MinMax, h, this]
  refine ⟨hmm, hmin, hmax, heq, by rw [heq], hfail, ?_, rfl⟩
  intro hxm
  apply hfail
  rintro ⟨n, _, h1, h2⟩
  omega

/-- C14 at `MinMax(10, 100)(50)`, which succeeds, at `MinMax(5, 1)(3)`, where
the minimum exceeds the maximum, and at the string `"50"`, which is no `int`. -/
theorem MinMax_iff_in_range_witness :
    MinMax 10 100 (.int 50) = .ret none ∧
    MinMax 5 1 (.int 3) = .ret (some (.wrapf ErrNotInScope (.int 3))) ∧
    MinMax 10 100 (.str "50") = .ret (some (.wrapf ErrNotInScope (.str "50"))) :=
  ⟨(MinMax_iff_in_range 10 100 (.int 50)).1.mpr ⟨50, rfl, by decide, by decide⟩,
   (MinMax_iff_in_range 5 1 (.int 3)).2.2.2.2.2.2.1 (by decide),
   (MinMax_iff_in_range 10 100 (.str "50")).2.2.2.2.2.1 (by
      rintro ⟨n, hn, _⟩
      cases hn)⟩

/-- C15 as stated fails on uncomparable values: `In([]int{1})([]int{1})`
does not return: the comparison of the two slices panics. -/
theorem In_panics_on_slices :
    ¬ ∀ (allowed : List Value) (value : Value), ∃ err, In allowed value = .ret err := by
  intro h
  obtain ⟨err, he⟩ := h [ints [1]] (ints [1])
  have hp : In [ints [1]] (ints [1]) = .panic "runtime error: comparing uncomparable type" :=
    rfl
  rw [hp] at he
  cases he

/-- Two values of one struct type with a field of slice type are not
comparable, whatever their fields hold: `In(T{1, []int{}})(T{2, []int{}})`
panics although the first fields differ. -/
theorem In_panics_on_struct_with_slice :
    goEq (.struct "T" [.int 1, ints []]) (.struct "T" [.int 2, ints []]) = none ∧
    In [.struct "T" [.int 1, ints []]] (.struct "T" [.int 2, ints []])
      = .panic "runtime error: comparing uncomparable type" :=
  ⟨rfl, rfl⟩

/-- C15, amended: when none of the comparisons `allowed[i] == value` panics,
`In(allowed...)(value)` returns nil if and only if the value is equal to at
least one element of `allowed`, and otherwise it returns
`errors.Wrapf(ErrNotInScope, "%v", value)`, an error whose cause is
`ErrNotInScope`; `In()` returns that error on every value. -/
theorem In_iff_equal_to_allowed (allowed : List Value) (value : Value)
    (hcmp : ∀ a ∈ allowed, goEq a value ≠ none) :
    (In allowed value = .ret none ↔ ∃ a ∈ allowed, goEq a value = some true) ∧
    ((¬ ∃ a ∈ allowed, goEq a value = some true) →
      In allowed value = .ret (some (.wrapf ErrNotInScope value))) ∧
    (GoErr.wrapf ErrNotInScope value).Cause = ErrNotInScope ∧
    In [] value = .ret (some (.wrapf ErrNotInScope value)) := by
  refine ⟨?_, ?_, rfl, rfl⟩
  · induction allowed with
    | nil => simp [In, inLoop]
    | cons a rest ih =>
      have ih' := ih (fun b hb => hcmp b (by simp [hb]))
      simp only [In] at ih' ⊢
      cases hg : goEq a value with
      | none => exact absurd hg (hcmp a (by simp))
      | some b =>
        cases b with
        | true => simp [inLoop, hg]
        | false => simp [inLoop, hg, ih']
  · induction allowed with
    | nil => intro _; rfl
    | cons a rest ih =>
      intro hno
      have ih' := ih (fun b hb => hcmp b (by simp [hb]))
        (fun ⟨b, hb, h⟩ => hno ⟨b, by simp [hb], h⟩)
      simp only [In] at ih' ⊢
      cases hg : goEq a value with
      | none => exact absurd hg (hcmp a (by simp))
      | some b =>
        cases b with
        | true => exact absurd ⟨a, by simp, hg⟩ hno
        | false => simp [inLoop, hg, ih']

/-- C15, amended, at `In("a", "b")("b")`, which succeeds, and `In("a", "b")("c")`,
which fails. -/
theorem In_iff_equal_to_allowed_witness :
    In [.str "a", .str "b"] (.str "b") = .ret none ∧
    In [.str "a", .str "b"] (.str "c") = .ret (some (.wrapf ErrNotInScope (.str "c"))) :=
  ⟨(In_iff_equal_to_allowed [.str "a", .str "b"] (.str "b") (by
      intro a ha
      simp only [List.mem_cons, List.mem_singleton, List.not_mem_nil, or_false] at ha
      rcases ha with rfl | rfl <;> decide)).1.mpr ⟨.str "b", by simp, rfl⟩,
   (In_iff_equal_to_allowed [.str "a", .str "b"] (.str "c") (by
      intro a ha
      simp only [List.mem_cons, List.mem_singleton, List.not_mem_nil, or_false] at ha
      rcases ha with rfl | rfl <;> decide)).2.1 (by
      rintro ⟨a, ha, h⟩
      simp only [List.mem_cons, List.mem_singleton, List.not_mem_nil, or_false] at ha
      rcases ha with rfl | rfl <;> revert h <;> decide)⟩

/-! ## `cleanSliceString` -/

theorem TrimRight_spec (s cutset : List Char) :
    (∃ r, s = TrimRight s cutset ++ r ∧ ∀ c ∈ r, cutset.contains c = true) ∧
    (∀ c, (TrimRight s cutset).getLast? = some c → cutset.contains c = false) := by
  constructor
  · refine ⟨(s.reverse.takeWhile (fun c => cutset.contains c)).reverse, ?_, ?_⟩
    · have h := List.takeWhile_append_dropWhile (fun c => cutset.contains c) s.reverse
      have h2 := congrArg List.reverse h
      simp only [List.reverse_append, List.reverse_reverse] at h2
      exact h2.symm
    · intro c hc
      exact List.mem_takeWhile_imp (List.mem_reverse.mp hc)
  · intro c hc
    simp only [TrimRight, List.getLast?_reverse] at hc
    have := List.head?_dropWhile_not (fun c => cutset.contains c) s.reverse
    rw [hc] at this
    exact this

/-- The function `Trim` removes a prefix and a suffix made of characters of
the cutset, and what it leaves neither begins nor ends with one. -/
theorem Trim_spec (s cutset : List Char) :
    (∃ l r, s = l ++ Trim s cutset ++ r ∧
      (∀ c ∈ l, cutset.contains c = true) ∧ (∀ c ∈ r, cutset.contains c = true)) ∧
    (∀ c, (Trim s cutset).head? = some c → cutset.contains c = false) ∧
    (∀ c, (Trim s cutset).getLast? = some c → cutset.contains c = false) := by
  obtain ⟨⟨r, hr, hrc⟩, hlast⟩ := TrimRight_spec s cutset
  have hsplit := List.takeWhile_append_dropWhile (fun c => cutset.contains c)
    (TrimRight s cutset)
  refine ⟨⟨(TrimRight s cutset).takeWhile (fun c => cutset.contains c), r, ?_, ?_, hrc⟩, ?_, ?_⟩
  · simp only [Trim, TrimLeft]
    rw [hsplit]
    exact hr
  · intro c hc
    exact List.mem_takeWhile_imp hc
  · intro c hc
    simp only [Trim, TrimLeft] at hc
    have := List.head?_dropWhile_not (fun c => cutset.contains c) (TrimRight s cutset)
    rw [hc] at this
    exact this
  · intro c hc
    apply hlast
    have hne : Trim s cutset ≠ [] := by
      intro h
      rw [h] at hc
      simp at hc
    simp only [Trim, TrimLeft] at hc hne
    rw [← hsplit, List.getLast?_append_of_ne_nil _ hne]
    exact hc

theorem cleanLoop_eq (list clean : List (List Char)) :
    cleanLoop list clean
      = clean ++ (list.map (fun v => Trim v [' ', Char.ofNat 9])).filter
          (fun v => decide (v.length > 0)) := by
  induction list generalizing clean with
  | nil => simp [cleanLoop]
  | cons v rest ih =>
    by_cases h : (Trim v [' ', Char.ofNat 9]).length > 0
    · simp [cleanLoop, h, ih]
    · simp [cleanLoop, h, ih]

/-- C18 as stated fails in two ways.  A string that trims to the empty
string is left out, so the outputs are not in step with the inputs:
`cleanSliceString(["a", " ", "b"])` has two strings.  And only spaces and
tabs are trimmed: `cleanSliceString(["\nx"])` returns `"\nx"`, which begins
with a line feed. -/
theorem cleanSliceString_not_positional :
    (¬ ∀ list : List (List Char), (cleanSliceString list).length = list.length) ∧
    (¬ ∀ list : List (List Char), ∀ s ∈ cleanSliceString list,
        ∀ c, s.head? = some c → isSpace c = false) := by
  constructor
  · intro h
    have := h ["a".toList, " ".toList, "b".toList]
    revert this
    decide
  · intro h
    have := h [[Char.ofNat 10, 'x']] [Char.ofNat 10, 'x'] (by decide) (Char.ofNat 10) rfl
    revert this
    decide

/-- What the loop of `cleanSliceString` computes: the strings
`strings.Trim(v, " \t")`, in the order of the input, that are not empty. -/
theorem cleanSliceString_eq_filter_trim (list : List (List Char)) :
    cleanSliceString list
      = (list.map (fun v => Trim v [' ', Char.ofNat 9])).filter
          (fun v => decide (v.length > 0)) ∧
    (∀ v : List Char, ∃ l r, v = l ++ Trim v [' ', Char.ofNat 9] ++ r ∧
      (∀ c ∈ l, c = ' ' ∨ c = Char.ofNat 9) ∧ (∀ c ∈ r, c = ' ' ∨ c = Char.ofNat 9)) ∧
    (∀ s ∈ cleanSliceString list, s ≠ [] ∧
      (∀ c, s.head? = some c → c ≠ ' ' ∧ c ≠ Char.ofNat 9) ∧
      (∀ c, s.getLast? = some c → c ≠ ' ' ∧ c ≠ Char.ofNat 9)) := by
  have hmem : ∀ c : Char, [' ', Char.ofNat 9].contains c = true ↔ (c = ' ' ∨ c = Char.ofNat 9) := by
    intro c
    simp
  have hnot : ∀ c : Char, [' ', Char.ofNat 9].contains c = false → c ≠ ' ' ∧ c ≠ Char.ofNat 9 := by
    intro c hc
    constructor
    · intro h; rw [(hmem c).mpr (Or.inl h)] at hc; cases hc
    · intro h; rw [(hmem c).mpr (Or.inr h)] at hc; cases hc
  have heq : cleanSliceString list
      = (list.map (fun v => Trim v [' ', Char.ofNat 9])).filter
          (fun v => decide (v.length > 0)) := by
    simp [cleanSliceString, cleanLoop_eq]
  refine ⟨heq, ?_, ?_⟩
  · intro v
    obtain ⟨⟨l, r, h1, h2, h3⟩, _⟩ := Trim_spec v [' ', Char.ofNat 9]
    exact ⟨l, r, h1, fun c hc => (hmem c).mp (h2 c hc), fun c hc => (hmem c).mp (h3 c hc)⟩
  · intro s hs
    rw [heq, List.mem_filter, List.mem_map] at hs
    obtain ⟨⟨v, _, rfl⟩, hlen⟩ := hs
    obtain ⟨_, hh, hl⟩ := Trim_spec v [' ', Char.ofNat 9]
    refine ⟨?_, fun c hc => hnot c (hh c hc), fun c hc => hnot c (hl c hc)⟩
    intro h
    rw [h] at hlen
    simp at hlen

theorem isSpace_of_cutset {c : Char} (h : c = ' ' ∨ c = Char.ofNat 9) : isSpace c = true := by
  rcases h with rfl | rfl <;> rfl

theorem filterMap_trim_eq (list : List (List Char)) :
    list.filterMap (fun v =>
        if (Trim v [' ', Char.ofNat 9]).length > 0 then some (Trim v [' ', Char.ofNat 9])
        else none)
      = (list.map (fun v => Trim v [' ', Char.ofNat 9])).filter
          (fun v => decide (v.length > 0)) := by
  induction list with
  | nil => rfl
  | cons v rest ih =>
    by_cases h : (Trim v [' ', Char.ofNat 9]).length > 0
    · simp [List.filterMap_cons, h, ih]
    · simp [List.filterMap_cons, h, ih]

/-- C18, amended: there is one treatment `g` of a single string such that
`cleanSliceString` returns, for every list and in the order of the input,
what `g` keeps of its strings.  A string that `g` leaves out holds white
space only.  A string that `g` keeps is returned without a prefix and a
suffix made of white space; what is returned is not empty and neither
begins nor ends with a space or a tab. -/
theorem cleanSliceString_trims_in_order :
    ∃ g : List Char → Option (List Char),
      (∀ list : List (List Char), cleanSliceString list = list.filterMap g) ∧
      (∀ v, g v = none → ∀ c ∈ v, isSpace c = true) ∧
      (∀ v out, g v = some out →
        out ≠ [] ∧
        (∃ l r, v = l ++ out ++ r ∧
          (∀ c ∈ l, isSpace c = true) ∧ (∀ c ∈ r, isSpace c = true)) ∧
        (∀ c, out.head? = some c → c ≠ ' ' ∧ c ≠ Char.ofNat 9) ∧
        (∀ c, out.getLast? = some c → c ≠ ' ' ∧ c ≠ Char.ofNat 9)) := by
  refine ⟨fun v =>
      if (Trim v [' ', Char.ofNat 9]).length > 0 then some (Trim v [' ', Char.ofNat 9])
      else none, ?_, ?_, ?_⟩
  · intro list
    rw [filterMap_trim_eq]
    exact (cleanSliceString_eq_filter_trim list).1
  · intro v hv c hc
    obtain ⟨l, r, h1, h2, h3⟩ := (cleanSliceString_eq_filter_trim []).2.1 v
    have hnil : Trim v [' ', Char.ofNat 9] = [] := by
      by_cases h : (Trim v [' ', Char.ofNat 9]).length > 0
      · simp [h] at hv
      · exact List.length_eq_zero.mp (by omega)
    rw [hnil, List.append_nil] at h1
    rw [h1, List.mem_append] at hc
    rcases hc with hc | hc
    · exact isSpace_of_cutset (h2 c hc)
    · exact isSpace_of_cutset (h3 c hc)
  · intro v out hv
    by_cases h : (Trim v [' ', Char.ofNat 9]).length > 0
    · simp only [h, if_true, Option.some.injEq] at hv
      subst hv
      obtain ⟨l, r, h1, h2, h3⟩ := (cleanSliceString_eq_filter_trim []).2.1 v
      have hin : Trim v [' ', Char.ofNat 9] ∈ cleanSliceString [v] := by
        rw [(cleanSliceString_eq_filter_trim [v]).1]
        simp [h]
      obtain ⟨k1, k2, k3⟩ := (cleanSliceString_eq_filter_trim [v]).2.2 _ hin
      exact ⟨k1, ⟨l, r, h1, fun c hc => isSpace_of_cutset (h2 c hc),
        fun c hc => isSpace_of_cutset (h3 c hc)⟩, k2, k3⟩
    · simp [h] at hv

/-- The call `cleanSliceString([" a ", " ", "b\t"])` returns `["a", "b"]`. -/
theorem cleanSliceString_example :
    cleanSliceString [" a ".toList, " ".toList, ['b', Char.ofNat 9]]
      = ["a".toList, "b".toList] := by
  decide

end qp
